import Mathlib

/-!
Verification development for the Java call-graph / flowchart core of the
graviti repository (file src-tauri/src/java_parser.rs).

The Rust core consumes a tree-sitter syntax tree.  The tree interface is an
external collaborator ("parse text, get a tree of typed nodes with byte
ranges and named children"), so it is embedded here as an explicit inductive
tree type: every node carries its kind tag, its named/anonymous flag, its
byte range, the source slice `text` that the Rust code reads via
`&source[node.byte_range()]`, and its ordered children together with their
optional field names (`child_by_field_name` picks the first child carrying
the requested field name).

All recursive traversals of the Rust code are embedded as fuel-indexed
structural recursions: the Rust recursions terminate because the tree is
finite and acyclic, and each embedded wrapper passes a fuel bound that is
far larger than the number of recursive calls any traversal of the tree can
make (`tree_fuel` below), so the fuel-zero branches are never reached by the
wrappers.  All general lemmas are proved for every fuel value.

Rust's `HashMap` is embedded as an association list with replace-on-insert
semantics, `HashSet<String>` (for the detected external services) as a
duplicate-free list with append-if-absent insertion; only membership facts
about the external-service set are claimed, so iteration order is
irrelevant.  Rust `String` pushes always append one `\n`-terminated line, so
the renderer output is embedded as the list of its lines; `render_lines`
rebuilds the exact output string.
-/

/-! ## String helpers (kernel-reducible models of the Rust string operations) -/

/-- Model of Rust `str::replace(pattern_char, replacement_char)`. -/
def replace_char (s : String) (c r : Char) : String :=
  String.mk (s.toList.map (fun x => if x = c then r else x))

/-- Character-level whitespace test used by `trim_str`. -/
def is_ws (c : Char) : Bool := c = ' ' || c = '\t' || c = '\n' || c = '\r'

/-- Model of Rust `str::trim`. -/
def trim_str (s : String) : String :=
  String.mk (((s.toList.dropWhile is_ws).reverse.dropWhile is_ws).reverse)

/-- Boolean test that `p` is an initial segment of `s` (model of Rust
`str::starts_with`). -/
def list_starts : List Char → List Char → Bool
  | [], _ => true
  | _ :: _, [] => false
  | p :: ps, s :: ss => p == s && list_starts ps ss

/-- Model of Rust `str::starts_with`. -/
def starts_with_str (s p : String) : Bool := list_starts p.toList s.toList

/-- Boolean substring test, used only to state theorems about the rendered
diagram text. -/
def list_has_sub (pat : List Char) : List Char → Bool
  | [] => list_starts pat []
  | c :: cs => list_starts pat (c :: cs) || list_has_sub pat cs

/-- Substring test on strings (statement helper, not part of the embedding). -/
def has_sub (s pat : String) : Bool := list_has_sub pat.toList s.toList

/-- Model of Rust `str::lines().next()` on a nonempty string: everything up
to the first newline. -/
def first_line_chars (s : String) : String :=
  String.mk (s.toList.takeWhile (fun c => !(c = '\n')))

/-- Model of Rust `[String]::join(sep)`. -/
def join_sep (sep : String) : List String → String
  | [] => ""
  | [x] => x
  | x :: y :: xs => x ++ sep ++ join_sep sep (y :: xs)

/-- Model of Rust `String::from_utf8`-free take of the first `n` characters
(the code slices `&s[..57]` / `&s[..27]` on label truncation). -/
def take_chars (s : String) (n : Nat) : String :=
  String.mk (s.toList.take n)

/-- Lexicographic character-list comparison; `Vec<String>::sort` on method
names is modelled with this order (UTF-8 byte order and code-point order
agree). -/
def list_le_chars : List Char → List Char → Bool
  | [], _ => true
  | _ :: _, [] => false
  | a :: as, b :: bs => if a < b then true else if b < a then false else list_le_chars as bs

/-- String comparison used by the sort model. -/
def str_le (a b : String) : Bool := list_le_chars a.toList b.toList

/-- Ordered insertion, the building block of the sort model. -/
def insort (x : String) : List String → List String
  | [] => [x]
  | y :: ys => if str_le x y then x :: y :: ys else y :: insort x ys

/-- Model of Rust `Vec<String>::sort()` (insertion sort; any stable
comparison sort produces the same ascending result on the sorted claims
proved below). -/
def sort_strings : List String → List String
  | [] => []
  | x :: xs => insort x (sort_strings xs)

/-! ## Association-list model of `HashMap<String, V>` and the external set -/

/-- Key membership in the association-list map model. -/
def mapContains {α : Type} (m : List (String × α)) (k : String) : Bool :=
  m.any (fun p => p.1 == k)

/-- `HashMap::get`. -/
def mapLookup {α : Type} (m : List (String × α)) (k : String) : Option α :=
  (m.find? (fun p => p.1 == k)).map (fun p => p.2)

/-- `HashMap::insert`: the new binding replaces any previous binding of the
same key.  (A `HashMap` iterates in an unspecified order, so any
association-list representative with these get/insert/contains semantics
models it; the newest-first representative is used here.) -/
def mapInsert {α : Type} (m : List (String × α)) (k : String) (v : α) :
    List (String × α) :=
  (k, v) :: m.filter (fun p => !(p.1 == k))

/-- `HashSet<String>::insert`: append if not already present. -/
def insertDedup (s : List String) (x : String) : List String :=
  if s.contains x then s else s ++ [x]

/-- Folding `HashSet` insertions over a list of candidates. -/
def insert_all (s : List String) : List String → List String
  | [] => s
  | x :: xs => insert_all (insertDedup s x) xs

/-! ## The syntax-tree collaborator interface -/

mutual
/-- One tree-sitter node: kind tag, named flag, byte range, source slice,
and ordered children each with an optional field name. -/
inductive TSNode : Type where
  | mk (kind : String) (isNamed : Bool) (startByte endByte : Nat) (text : String)
       (children : TSList) : TSNode
deriving Repr, DecidableEq

/-- The ordered children of a node; each child records the field name under
which it sits in its parent (if any). -/
inductive TSList : Type where
  | nil : TSList
  | cons (fieldName : Option String) (node : TSNode) (rest : TSList) : TSList
deriving Repr, DecidableEq
end

def TSNode.kind : TSNode → String
  | .mk k _ _ _ _ _ => k

def TSNode.isNamed : TSNode → Bool
  | .mk _ b _ _ _ _ => b

def TSNode.startByte : TSNode → Nat
  | .mk _ _ s _ _ _ => s

def TSNode.endByte : TSNode → Nat
  | .mk _ _ _ e _ _ => e

def TSNode.text : TSNode → String
  | .mk _ _ _ _ t _ => t

def TSNode.children : TSNode → TSList
  | .mk _ _ _ _ _ ch => ch

/-- `node.child_by_field_name(f)`: the first child carrying field name f. -/
def TSList.findField : TSList → String → Option TSNode
  | .nil, _ => none
  | .cons fn n rest, f => if fn == some f then some n else rest.findField f

def TSNode.childByField (n : TSNode) (f : String) : Option TSNode :=
  n.children.findField f

/-- `node.child_count()` counts all children, named or not. -/
def TSList.length : TSList → Nat
  | .nil => 0
  | .cons _ _ rest => 1 + rest.length

def TSNode.childCount (n : TSNode) : Nat := n.children.length

mutual
/-- Number of nodes in the tree (used to compute a fuel bound). -/
def TSNode.size : TSNode → Nat
  | .mk _ _ _ _ _ ch => 1 + ch.size

def TSList.size : TSList → Nat
  | .nil => 0
  | .cons _ n rest => 1 + n.size + rest.size
end

/-- Fuel bound passed by the embedded entry points: each recursive call of
any embedded traversal either moves to a strict subterm of the tree or is
one of at most a handful of same-node steps between mutually recursive
functions, so `8 * root.size + 8` strictly exceeds the number of nested
calls any traversal of the tree can make. -/
def tree_fuel (n : TSNode) : Nat := 8 * n.size + 8

/-! ## Data model (java_parser.rs structs) -/

/-- `MethodNode`: one declared method. -/
structure MethodNode where
  name : String
  range : Nat × Nat
  modifiers : List String
  return_type : String
deriving Repr, DecidableEq

/-- `CallGraph`: method registry and caller adjacency. -/
structure CallGraph where
  nodes : List (String × MethodNode)
  calls : List (String × List String)
deriving Repr, DecidableEq

/-- `MermaidResult`: diagram text plus detected external services. -/
structure MermaidResult where
  mermaid : String
  external_services : List String
deriving Repr, DecidableEq

/-! ## Declaration Collector (JavaParser::collect_method_declarations) -/

/-- All child nodes of a list, dropping the field names. -/
def tslist_nodes : TSList → List TSNode
  | .nil => []
  | .cons _ n rest => n :: tslist_nodes rest

/-- First child of a given kind (`children().find(|x| x.kind() == k)`). -/
def tslist_find_kind : TSList → String → Option TSNode
  | .nil, _ => none
  | .cons _ n rest, k => if n.kind == k then some n else tslist_find_kind rest k

/-- The per-declaration extraction step of `collect_method_declarations`:
name (trimmed), modifier tokens (children of the modifiers node, falling
back to its whole trimmed text when it has no children), declared return
type (empty for constructors), and the byte range. -/
def extract_method_decl (child : TSNode) : Option (String × MethodNode) :=
  match child.childByField "name" with
  | none => none
  | some name_node =>
    let name := trim_str name_node.text
    let modifiers_node :=
      match child.childByField "modifiers" with
      | some m => some m
      | none => tslist_find_kind child.children "modifiers"
    let modifiers :=
      match modifiers_node with
      | some mn =>
        let ms := (tslist_nodes mn.children).map (fun c => trim_str c.text)
        if ms.isEmpty then [trim_str mn.text] else ms
      | none => []
    let return_type :=
      match child.childByField "type" with
      | some t => trim_str t.text
      | none => ""
    some (name, { name := name, range := (child.startByte, child.endByte),
                  modifiers := modifiers, return_type := return_type })

mutual
/-- `collect_method_declarations`: walk the children; record every
method_declaration in the registry and the declaration list; recurse into
class_declaration and class_body nodes. -/
def collect_method_declarations :
    TSNode → List (String × MethodNode) × List (String × TSNode) →
    List (String × MethodNode) × List (String × TSNode)
  | .mk _ _ _ _ _ ch, acc => collect_decl_children ch acc

def collect_decl_children :
    TSList → List (String × MethodNode) × List (String × TSNode) →
    List (String × MethodNode) × List (String × TSNode)
  | .nil, acc => acc
  | .cons _ child rest, acc =>
    let acc1 :=
      if child.kind == "method_declaration" then
        match extract_method_decl child with
        | some nm => (mapInsert acc.1 nm.1 nm.2, acc.2 ++ [(nm.1, child)])
        | none => acc
      else if child.kind == "class_declaration" || child.kind == "class_body" then
        collect_method_declarations child acc
      else acc
    collect_decl_children rest acc1
end

/-! ## Pass-2 call visitor (JavaParser::visit_body / find_calls) -/

mutual
/-- `visit_body`: walk a body collecting internally-resolved call names in
order; for a method_invocation record the name when it is a direct or
`this.` call to a declared method, then search only its arguments for
nested calls; for any other node with children recurse into it. -/
def visit_body : Nat → TSNode → List String → List String → List String
  | 0, _, _, calls => calls
  | fuel+1, node, valid_methods, calls =>
    visit_children fuel node.children valid_methods calls

def visit_children : Nat → TSList → List String → List String → List String
  | 0, _, _, calls => calls
  | _+1, .nil, _, calls => calls
  | fuel+1, .cons _ child rest, valid_methods, calls =>
    let calls1 :=
      if child.kind == "method_invocation" then
        let calls0 :=
          match child.childByField "name" with
          | some name_node =>
            let name := name_node.text
            let is_local_call :=
              match child.childByField "object" with
              | none => true
              | some obj => obj.text == "this"
            if is_local_call && valid_methods.contains name then calls ++ [name]
            else calls
          | none => calls
        match child.childByField "arguments" with
        | some args => visit_body fuel args valid_methods calls0
        | none => calls0
      else if child.childCount > 0 then visit_body fuel child valid_methods calls
      else calls
    visit_children fuel rest valid_methods calls1
end

/-- `find_calls`: analyze only the `body` field of a declaration. -/
def find_calls (node : TSNode) (valid_methods : List String) : List String :=
  match node.childByField "body" with
  | some body => visit_body (tree_fuel body) body valid_methods []
  | none => []

/-- `JavaParser::parse` (the tree-consuming part: the tree-sitter parse
itself is the external collaborator, its success is the hypothesis under
which the Rust function returns `Ok`). -/
def JavaParser.parse (root : TSNode) : CallGraph :=
  let collected := collect_method_declarations root ([], [])
  let methods := collected.1
  let method_declarations := collected.2
  let method_names := methods.map (fun p => p.1)
  let method_calls := method_declarations.foldl
    (fun acc p => mapInsert acc p.1 (find_calls p.2 method_names)) []
  { nodes := methods, calls := method_calls }

/-! ## Renderer state and configuration (struct FlowGenerator) -/

/-- The immutable part of a `FlowGenerator`: the call graph and the render
configuration. -/
structure GenCfg where
  graph : CallGraph
  ignored_variables : List String
  ignored_services : List String
  collapse_details : Bool

/-- The mutable part of a `FlowGenerator`: node counter, output (as its list
of lines) and the detected external services. -/
structure GenSt where
  counter : Nat
  out : List String
  externals : List String
deriving Repr, DecidableEq

/-- `FlowGenerator::next_id`. -/
def next_id (st : GenSt) : String × GenSt :=
  ("N" ++ Nat.repr (st.counter + 1), { st with counter := st.counter + 1 })

/-- One `output.push_str(line + "\n")`. -/
def push_line (st : GenSt) (l : String) : GenSt :=
  { st with out := st.out ++ [l] }

/-- The arrow text used when connecting the frontier to a new node. -/
def arrow_of (label : Option String) : String :=
  match label with
  | some l => "-->|" ++ l ++ "|"
  | none => "-->"

/-- Connect every frontier node to `target`, consuming the pending label on
each drawn edge (the callers reset the label to none afterwards). -/
def push_edges (st : GenSt) (prevs : List String) (label : Option String)
    (target : String) : GenSt :=
  prevs.foldl
    (fun s p => push_line s ("    " ++ p ++ " " ++ arrow_of label ++ " " ++ target)) st

/-- The click/navigation directive emitted under every rendered node. -/
def click_line (id : String) (off : Nat) : String :=
  "    click " ++ id ++ " call onNodeClick(\"offset-" ++ Nat.repr off ++
    "\") \"Scroll to source\""

/-- One collected invocation: (name, is_external, raw_text, offset). -/
abbrev CallInfo := String × Bool × String × Nat

/-! ## Call collection (FlowGenerator::collect_calls_recursive) -/

/-- The body of the `if node.kind() == "method_invocation"` block of
`collect_calls_recursive`: ignore-filter check, internal/external
classification, external-receiver recording and call accumulation. -/
def invocation_step (cfg : GenCfg) (node : TSNode)
    (acc : List CallInfo × List String) : List CallInfo × List String :=
  if node.kind == "method_invocation" then
    match node.childByField "name" with
    | some name_node =>
      let name_text := name_node.text
      let raw_text := node.text
      let should_ignore :=
        match node.childByField "object" with
        | some obj_node =>
          (cfg.ignored_services.any (fun svc =>
            starts_with_str raw_text svc || obj_node.text == svc))
          || (cfg.ignored_variables.any (fun v =>
            obj_node.text == v || starts_with_str obj_node.text (v ++ ".")))
        | none => false
      if should_ignore then acc
      else
        match node.childByField "object" with
        | some obj_node =>
          if obj_node.text == "this" then
            (acc.1 ++ [(name_text, false, raw_text, node.startByte)], acc.2)
          else
            (acc.1 ++ [(name_text, true, raw_text, node.startByte)],
             insertDedup acc.2 obj_node.text)
        | none =>
          if mapContains cfg.graph.nodes name_text then
            (acc.1 ++ [(name_text, false, raw_text, node.startByte)], acc.2)
          else
            (acc.1 ++ [(name_text, true, raw_text, node.startByte)], acc.2)
    | none => acc
  else acc

mutual
/-- `collect_calls_recursive`: process the node itself, then every child. -/
def collect_calls_recursive (cfg : GenCfg) :
    TSNode → List CallInfo × List String → List CallInfo × List String
  | .mk k b s e t ch, acc =>
    collect_calls_children cfg ch (invocation_step cfg (.mk k b s e t ch) acc)

def collect_calls_children (cfg : GenCfg) :
    TSList → List CallInfo × List String → List CallInfo × List String
  | .nil, acc => acc
  | .cons _ n rest, acc =>
    collect_calls_children cfg rest (collect_calls_recursive cfg n acc)
end

/-- `find_calls_in_node`: fresh call vector, threaded external set. -/
def find_calls_in_node (cfg : GenCfg) (node : TSNode) (externals : List String) :
    List CallInfo × List String :=
  collect_calls_recursive cfg node ([], externals)

/-! ## Emission of call nodes (the `for (name, is_external, ...) in calls`
loop shared verbatim by `process_expression_with_label` and
`process_if_with_label`) -/

def emit_call_nodes : List CallInfo → List String → Option String → GenSt →
    List String × Option String × GenSt
  | [], prevs, label, st => (prevs, label, st)
  | (name, is_ext, raw_text, offset) :: rest, prevs, label, st =>
    let idst := next_id st
    let node_id := idst.1
    let st := idst.2
    let text_label := if is_ext then "External: " ++ raw_text else name
    let style := if is_ext then "external" else "internal"
    let safe_label := replace_char text_label '"' '\''
    let st := push_line st ("    " ++ node_id ++ "[\"" ++ safe_label ++ "\"]:::" ++ style)
    let st := push_line st (click_line node_id offset)
    let st := push_edges st prevs label node_id
    emit_call_nodes rest [node_id] none st

/-- `process_expression_with_label` (also handles local variable
declarations and return statements, as dispatched). -/
def process_expression_with_label (cfg : GenCfg) (node : TSNode)
    (prev_ids : List String) (label : Option String) (st : GenSt) :
    List String × GenSt :=
  let ce := find_calls_in_node cfg node st.externals
  let calls := ce.1
  let st := { st with externals := ce.2 }
  let is_ret := node.kind == "return_statement"
  if calls.isEmpty && !is_ret then (prev_ids, st)
  else
    let r := emit_call_nodes calls prev_ids label st
    let current_prevs := r.1
    let pending_label := r.2.1
    let st := r.2.2
    if is_ret then
      let idst := next_id st
      let node_id := idst.1
      let st := idst.2
      let return_text := replace_char node.text '"' '\''
      let st := push_line st ("    " ++ node_id ++ "[\"" ++ return_text ++ "\"]")
      let st := push_line st (click_line node_id node.startByte)
      let st := push_edges st current_prevs pending_label node_id
      ([node_id], st)
    else (current_prevs, st)

/-! ## The recursive renderer (FlowGenerator::dispatch_node and friends).

The mutual recursion below is indexed by a fuel argument: every call from
one member to another passes the fuel it matched, minus one.  The wrappers
pass `tree_fuel`, which strictly exceeds the number of nested calls any
traversal of the given tree can make (at most four same-node hops separate
two strict descents into a subtree), so the fuel-zero branches — which
return the frontier and state unchanged — are never taken on the embedded
entry points.  All general lemmas below are proved for every fuel value. -/

mutual
/-- `dispatch_node`: dispatch on the statement kind. -/
def dispatch_node : Nat → GenCfg → TSNode → List String → Option String →
    GenSt → List String × GenSt
  | 0, _, _, prev_ids, _, st => (prev_ids, st)
  | fuel+1, cfg, node, prev_ids, label, st =>
    if node.kind == "expression_statement" || node.kind == "local_variable_declaration"
        || node.kind == "return_statement" then
      process_expression_with_label cfg node prev_ids label st
    else if node.kind == "if_statement" then
      process_if_with_label fuel cfg node prev_ids label st
    else if node.kind == "for_statement" || node.kind == "while_statement"
        || node.kind == "do_statement" || node.kind == "enhanced_for_statement" then
      process_loop_with_label fuel cfg node prev_ids label st
    else if node.kind == "switch_expression" || node.kind == "switch_statement" then
      process_switch_with_label fuel cfg node prev_ids label st
    else
      process_generic_recursive_with_label fuel cfg node prev_ids label st

/-- `process_if_with_label`: emit the condition calls, the decision node,
then both branches (frontier = union of the branch frontiers).  The source
unwraps the `condition` and `consequence` fields; the none branches below
model the panic paths, unreachable on grammar-produced trees. -/
def process_if_with_label : Nat → GenCfg → TSNode → List String → Option String →
    GenSt → List String × GenSt
  | 0, _, _, prev_ids, _, st => (prev_ids, st)
  | fuel+1, cfg, node, prev_ids, label, st =>
    match node.childByField "condition" with
    | none => (prev_ids, st)
    | some condition_node =>
      let ce := find_calls_in_node cfg condition_node st.externals
      let cond_calls := ce.1
      let st := { st with externals := ce.2 }
      let r := emit_call_nodes cond_calls prev_ids label st
      let current_prevs := r.1
      let pending_label := r.2.1
      let st := r.2.2
      let clean_cond := replace_char (replace_char condition_node.text '\n' ' ') '"' '\''
      let idst := next_id st
      let cond_id := idst.1
      let st := idst.2
      let st := push_line st ("    " ++ cond_id ++ "\x7b\"" ++ clean_cond ++ "\"\x7d:::decision")
      let st := push_line st (click_line cond_id condition_node.startByte)
      let st := push_edges st current_prevs pending_label cond_id
      match node.childByField "consequence" with
      | none => ([cond_id], st)
      | some consequence =>
        let rt := traverse_node_with_label fuel cfg consequence [cond_id] (some "Yes") st
        let ended_then := rt.1
        let st := rt.2
        let re :=
          match node.childByField "alternative" with
          | some alternative =>
            traverse_node_with_label fuel cfg alternative [cond_id] (some "No") st
          | none => ([cond_id], st)
        (ended_then ++ re.1, re.2)

/-- `process_loop_with_label`: one loop-header node per loop statement, the
body rendered under the "loop body" label, dashed repeat back-edges from the
body exits, and the loop node itself as the sole forward frontier. -/
def process_loop_with_label : Nat → GenCfg → TSNode → List String → Option String →
    GenSt → List String × GenSt
  | 0, _, _, prev_ids, _, st => (prev_ids, st)
  | fuel+1, cfg, node, prev_ids, label, st =>
    let loop_text :=
      if node.kind == "for_statement" then
        let parts :=
          (match node.childByField "init" with
           | some i => [i.text]
           | none => []) ++
          (match node.childByField "condition" with
           | some c => [c.text]
           | none => []) ++
          (match node.childByField "update" with
           | some u => [u.text]
           | none => [])
        "for (" ++ join_sep "; " parts ++ ")"
      else if node.kind == "while_statement" then
        match node.childByField "condition" with
        | some c => "while " ++ c.text
        | none => "while (...)"
      else if node.kind == "do_statement" then
        match node.childByField "condition" with
        | some c => "do...while " ++ c.text
        | none => "do...while (...)"
      else if node.kind == "enhanced_for_statement" then
        let type_text := (node.childByField "type").elim "" TSNode.text
        let name_text := (node.childByField "name").elim "" TSNode.text
        let value_text := (node.childByField "value").elim "" TSNode.text
        "for (" ++ type_text ++ " " ++ name_text ++ " : " ++ value_text ++ ")"
      else "loop"
    let safe_text := replace_char (replace_char loop_text '"' '\'') '\n' ' '
    let display_text :=
      if safe_text.length > 60 then take_chars safe_text 57 ++ "..." else safe_text
    let idst := next_id st
    let loop_id := idst.1
    let st := idst.2
    let st := push_line st ("    " ++ loop_id ++ "\x7b\x7b\"" ++ display_text ++ "\"\x7d\x7d:::loop")
    let st := push_line st (click_line loop_id node.startByte)
    let st := push_edges st prev_ids label loop_id
    let rb :=
      match node.childByField "body" with
      | some body_node =>
        traverse_node_with_label fuel cfg body_node [loop_id] (some "loop body") st
      | none => ([loop_id], st)
    let body_end_ids := rb.1
    let st := rb.2
    let st := body_end_ids.foldl
      (fun s e =>
        if e == loop_id then s
        else push_line s ("    " ++ e ++ " -.->|repeat| " ++ loop_id)) st
    ([loop_id], st)

/-- `process_switch_with_label`: one diamond node labelled from the switch
subject, then every named child of the body as a case rendered under its
case label; the frontier is the concatenation of the case frontiers, or the
switch node itself if no case produced one. -/
def process_switch_with_label : Nat → GenCfg → TSNode → List String → Option String →
    GenSt → List String × GenSt
  | 0, _, _, prev_ids, _, st => (prev_ids, st)
  | fuel+1, cfg, node, prev_ids, label, st =>
    let condition := (node.childByField "condition").elim "..." TSNode.text
    let safe_condition := replace_char (replace_char condition '"' '\'') '\n' ' '
    let idst := next_id st
    let switch_id := idst.1
    let st := idst.2
    let st := push_line st ("    " ++ switch_id ++ "\x7b\"switch " ++ safe_condition ++ "\"\x7d:::decision")
    let st := push_line st (click_line switch_id node.startByte)
    let st := push_edges st prev_ids label switch_id
    let rc :=
      match node.childByField "body" with
      | some body_node => switch_cases fuel cfg switch_id body_node.children [] st
      | none => ([], st)
    let all_exit_ids := rc.1
    let st := rc.2
    if all_exit_ids.isEmpty then ([switch_id], st) else (all_exit_ids, st)

/-- The case loop of `process_switch_with_label`. -/
def switch_cases : Nat → GenCfg → String → TSList → List String → GenSt →
    List String × GenSt
  | 0, _, _, _, exits, st => (exits, st)
  | _+1, _, _, .nil, exits, st => (exits, st)
  | fuel+1, cfg, switch_id, .cons _ child rest, exits, st =>
    if child.isNamed then
      let case_label :=
        if child.kind == "switch_block_statement_group" then
          let label_parts := (tslist_nodes child.children).filterMap
            (fun c => if c.kind == "switch_label" then some (trim_str c.text) else none)
          if label_parts.isEmpty then "case" else join_sep ", " label_parts
        else
          trim_str (if child.text == "" then "case" else first_line_chars child.text)
      let safe_case_label := replace_char (replace_char case_label '"' '\'') '\n' ' '
      let display_label :=
        if safe_case_label.length > 30 then take_chars safe_case_label 27 ++ "..."
        else safe_case_label
      let rcase := traverse_node_with_label fuel cfg child [switch_id] (some display_label) st
      switch_cases fuel cfg switch_id rest (exits ++ rcase.1) rcase.2
    else switch_cases fuel cfg switch_id rest exits st

/-- `process_generic_recursive_with_label`: dispatch every named child in
order, consuming the pending label on the first child that changes the
frontier. -/
def process_generic_recursive_with_label : Nat → GenCfg → TSNode → List String →
    Option String → GenSt → List String × GenSt
  | 0, _, _, prev_ids, _, st => (prev_ids, st)
  | fuel+1, cfg, node, prev_ids, label, st =>
    dispatch_children fuel cfg node.children prev_ids label st

/-- The child loop shared by `process_generic_recursive_with_label` and the
block case of `traverse_node_with_label` (the two Rust loops are
identical): skip anonymous children, dispatch the rest in order, reset the
label once the frontier changes. -/
def dispatch_children : Nat → GenCfg → TSList → List String → Option String →
    GenSt → List String × GenSt
  | 0, _, _, current_ids, _, st => (current_ids, st)
  | _+1, _, .nil, current_ids, _, st => (current_ids, st)
  | fuel+1, cfg, .cons _ child rest, current_ids, current_label, st =>
    if child.isNamed then
      let r := dispatch_node fuel cfg child current_ids current_label st
      if r.1 == current_ids then
        dispatch_children fuel cfg rest current_ids current_label r.2
      else
        dispatch_children fuel cfg rest r.1 none r.2
    else dispatch_children fuel cfg rest current_ids current_label st

/-- `traverse_node_with_label`: iterate a block's children with the pending
label, or dispatch any other node directly. -/
def traverse_node_with_label : Nat → GenCfg → TSNode → List String → Option String →
    GenSt → List String × GenSt
  | 0, _, _, prev_ids, _, st => (prev_ids, st)
  | fuel+1, cfg, node, prev_ids, label, st =>
    if node.kind == "block" then
      dispatch_children fuel cfg node.children prev_ids label st
    else dispatch_node fuel cfg node prev_ids label st
end

/-- `traverse_block`: the label-free top-level statement walk of a method
body; its Rust loop is the `label = None` instance of the shared child loop
(the label stays `None` throughout). -/
def traverse_block (fuel : Nat) (cfg : GenCfg) (block_node : TSNode)
    (prev_ids : List String) (st : GenSt) : List String × GenSt :=
  dispatch_children fuel cfg block_node.children prev_ids none st

/-- `generate_method_flow`: subgraph wrapper, public start marker, body
walk, end marker connected from every remaining frontier node. -/
def generate_method_flow (fuel : Nat) (cfg : GenCfg) (method_node : TSNode)
    (method_name : String) (st : GenSt) : GenSt :=
  let st := push_line st ("  subgraph " ++ method_name)
  let st := push_line st "    direction TB"
  let idst := next_id st
  let start_id := idst.1
  let st := idst.2
  let st := push_line st ("    " ++ start_id ++ "([\"" ++ method_name ++ "\"]):::public")
  let st :=
    match method_node.childByField "body" with
    | some body =>
      let rb := traverse_block fuel cfg body [start_id] st
      let end_nodes := rb.1
      let st := rb.2
      let idst2 := next_id st
      let end_id := idst2.1
      let st := idst2.2
      let st := end_nodes.foldl
        (fun s p => push_line s ("    " ++ p ++ " --> " ++ end_id)) st
      push_line st ("    " ++ end_id ++ "([\"End of " ++ method_name ++ "\"]):::endNode")
    | none => st
  push_line st "  end"

/-! ## Locating a method node again by its recorded byte range -/

mutual
/-- `find_node_recursive`: exact byte-range match, recursing only into
children overlapping the range. -/
def find_node_recursive : Nat → TSNode → Nat → Nat → Option TSNode
  | 0, _, _, _ => none
  | fuel+1, node, s, e =>
    if node.startByte == s && node.endByte == e then some node
    else find_node_children fuel node.children s e

def find_node_children : Nat → TSList → Nat → Nat → Option TSNode
  | 0, _, _, _ => none
  | _+1, .nil, _, _ => none
  | fuel+1, .cons _ child rest, s, e =>
    if s < child.endByte ∧ child.startByte < e then
      match find_node_recursive fuel child s e with
      | some found => some found
      | none => find_node_children fuel rest s e
    else find_node_children fuel rest s e
end

/-- `find_node_by_range`. -/
def find_node_by_range (root : TSNode) (s e : Nat) : Option TSNode :=
  find_node_recursive (tree_fuel root) root s e

/-- The per-target lookup performed inside the render loops:
`graph.nodes.get(name)` followed by `find_node_by_range`. -/
def locate_target (graph : CallGraph) (root : TSNode) (m : String) : Option TSNode :=
  match mapLookup graph.nodes m with
  | some node_info => find_node_by_range root node_info.range.1 node_info.range.2
  | none => none

/-! ## Target selection and the two render entry points -/

/-- Target selection, shared verbatim by `generate_mermaid` and
`generate_mermaid_filtered`: a given name renders just itself when present
(and nothing when absent); no name renders the sorted public/protected
surface. -/
def select_targets (graph : CallGraph) (method_name : Option String) : List String :=
  match method_name with
  | some name => if mapContains graph.nodes name then [name] else []
  | none =>
    sort_strings ((graph.nodes.filter
      (fun p => p.2.modifiers.contains "public" || p.2.modifiers.contains "protected")).map
      (fun p => p.1))

/-- The fixed trailing style-class lines. -/
def style_lines : List String :=
  [ "  classDef public fill:#f9f,stroke:#333,stroke-width:2px;"
  , "  classDef internal fill:#e1f5fe,stroke:#01579b,stroke-width:1px;"
  , "  classDef external fill:#ffe0b2,stroke:#e65100,stroke-width:1px,stroke-dasharray: 5 5;"
  , "  classDef decision fill:#fff9c4,stroke:#fbc02d,stroke-width:1px,shape:rhombus;"
  , "  classDef loop fill:#e8f5e9,stroke:#2e7d32,stroke-width:1px;"
  , "  classDef endNode fill:#fce4ec,stroke:#c62828,stroke-width:2px;" ]

/-- Rebuild the output string from its lines (every Rust push appends one
newline-terminated line). -/
def render_lines : List String → String
  | [] => ""
  | l :: ls => l ++ "\n" ++ render_lines ls

/-- The fixed generator configuration of the unfiltered entry point
`generate_mermaid`: no ignored variables, the hardcoded
`System.out`/`System.err` ignored services, no collapsing. -/
def generate_mermaid_cfg (graph : CallGraph) : GenCfg :=
  { graph := graph, ignored_variables := [],
    ignored_services := ["System.out", "System.err"], collapse_details := false }

/-- `JavaParser::generate_mermaid` (success path of the re-parse: the same
tree is handed back by the deterministic tree collaborator). -/
def generate_mermaid (graph : CallGraph) (root : TSNode)
    (method_name : Option String) : String :=
  let target_methods := select_targets graph method_name
  let cfg := generate_mermaid_cfg graph
  let st0 : GenSt := { counter := 0, out := ["flowchart TD"], externals := [] }
  let st := target_methods.foldl
    (fun s m =>
      match locate_target graph root m with
      | some method_node => generate_method_flow (tree_fuel root) cfg method_node m s
      | none => s) st0
  render_lines (st.out ++ style_lines)

/-- `JavaParser::generate_mermaid_filtered` (success path of the re-parse). -/
def generate_mermaid_filtered (graph : CallGraph) (root : TSNode)
    (method_name : Option String) (ignored_variables ignored_services : List String)
    (collapse_details : Bool) : MermaidResult :=
  let target_methods := select_targets graph method_name
  let cfg : GenCfg :=
    { graph := graph, ignored_variables := ignored_variables,
      ignored_services := ignored_services, collapse_details := collapse_details }
  let st0 : GenSt := { counter := 0, out := ["flowchart TD"], externals := [] }
  let st :=
    if collapse_details && method_name.isNone then
      target_methods.foldl
        (fun s m =>
          let idst := next_id s
          push_line idst.2 ("    " ++ idst.1 ++ "([\"" ++ m ++ "\"]):::public")) st0
    else
      target_methods.foldl
        (fun s m =>
          match locate_target graph root m with
          | some method_node => generate_method_flow (tree_fuel root) cfg method_node m s
          | none => s) st0
  { mermaid := render_lines (st.out ++ style_lines),
    external_services := st.externals }

/-! ## Specification-side definitions used by the theorems -/

/-- Keys of the association-list map are pairwise distinct. -/
def KeysNodup {α : Type} (m : List (String × α)) : Prop :=
  (m.map Prod.fst).Nodup

/-- Ascending order of a line of strings, as produced by the sort model. -/
def StrSorted (l : List String) : Prop :=
  l.Pairwise (fun a b => str_le a b = true)

/-- The binding that claim C7 says must survive in the registry: the last
collected declaration of a name, pushed through the extraction step. -/
def last_decl_entry (decls : List (String × TSNode)) (n : String) : Option MethodNode :=
  ((decls.filter (fun p => p.1 == n)).getLast?).bind
    (fun p => (extract_method_decl p.2).map (fun q => q.2))

/-- Invariant carried through the collector: the registry answers every
lookup with the last collected declaration of that name, its keys are
distinct, and every collected declaration name is a registry key. -/
def CollectInv (acc : List (String × MethodNode) × List (String × TSNode)) : Prop :=
  (∀ n, mapLookup acc.1 n = last_decl_entry acc.2 n)
  ∧ KeysNodup acc.1
  ∧ (∀ p ∈ acc.2, mapContains acc.1 p.1 = true)

/-! ## Characterization of the call collection (groundwork for C1, C2, C3,
C9, C10) -/

mutual
/-- All nodes of a subtree in the collection order of
`collect_calls_recursive` (the node itself, then its children in order). -/
def preorder_nodes : TSNode → List TSNode
  | .mk k b s e t ch => .mk k b s e t ch :: preorder_children ch

def preorder_children : TSList → List TSNode
  | .nil => []
  | .cons _ n rest => preorder_nodes n ++ preorder_children rest
end

/-- The ignore test of `collect_calls_recursive`, applied to one
invocation node: a call with a receiver is suppressed when its full source
text starts with an ignored service name, or its receiver text equals an
ignored service name, or its receiver text equals an ignored variable name
or starts with that name followed by a dot; a call without a receiver is
never suppressed. -/
def should_ignore_invocation (cfg : GenCfg) (node : TSNode) : Bool :=
  match node.childByField "object" with
  | some obj_node =>
    (cfg.ignored_services.any (fun svc =>
      starts_with_str node.text svc || obj_node.text == svc))
    || (cfg.ignored_variables.any (fun v =>
      obj_node.text == v || starts_with_str obj_node.text (v ++ ".")))
  | none => false

/-- The call record that one node contributes to the collected call list:
`some` exactly for non-suppressed method invocations carrying a name field,
classified internal (`is_external = false`) when the receiver is `this` or
when there is no receiver and the name is a registry key. -/
def head_call (cfg : GenCfg) (node : TSNode) : Option CallInfo :=
  if node.kind == "method_invocation" then
    match node.childByField "name" with
    | some name_node =>
      if should_ignore_invocation cfg node then none
      else
        let is_ext :=
          match node.childByField "object" with
          | some obj => !(obj.text == "this")
          | none => !(mapContains cfg.graph.nodes name_node.text)
        some (name_node.text, is_ext, node.text, node.startByte)
    | none => none
  else none

/-- The external-service name that one node contributes: the full receiver
text, recorded exactly for non-suppressed invocations (with a name field)
whose receiver is present and different from `this`. -/
def head_receiver (cfg : GenCfg) (node : TSNode) : Option String :=
  if node.kind == "method_invocation" then
    match node.childByField "name" with
    | some _ =>
      if should_ignore_invocation cfg node then none
      else
        match node.childByField "object" with
        | some obj => if obj.text == "this" then none else some obj.text
        | none => none
    | none => none
  else none

/-! ## The external receivers gathered by each renderer function
(specification-side mirror of the traversal, used to characterize
external_services for claim C1) -/

/-- Receivers recorded by one call-collection pass over a subtree. -/
def collect_receivers (cfg : GenCfg) (node : TSNode) : List String :=
  (preorder_nodes node).filterMap (head_receiver cfg)

mutual
def dispatch_receivers : Nat → GenCfg → TSNode → List String
  | 0, _, _ => []
  | fuel+1, cfg, node =>
    if node.kind == "expression_statement" || node.kind == "local_variable_declaration"
        || node.kind == "return_statement" then
      collect_receivers cfg node
    else if node.kind == "if_statement" then
      if_receivers fuel cfg node
    else if node.kind == "for_statement" || node.kind == "while_statement"
        || node.kind == "do_statement" || node.kind == "enhanced_for_statement" then
      loop_receivers fuel cfg node
    else if node.kind == "switch_expression" || node.kind == "switch_statement" then
      switch_receivers fuel cfg node
    else
      generic_receivers fuel cfg node

def if_receivers : Nat → GenCfg → TSNode → List String
  | 0, _, _ => []
  | fuel+1, cfg, node =>
    match node.childByField "condition" with
    | none => []
    | some condition_node =>
      collect_receivers cfg condition_node ++
        match node.childByField "consequence" with
        | none => []
        | some consequence =>
          traverse_receivers fuel cfg consequence ++
            match node.childByField "alternative" with
            | some alternative => traverse_receivers fuel cfg alternative
            | none => []

def loop_receivers : Nat → GenCfg → TSNode → List String
  | 0, _, _ => []
  | fuel+1, cfg, node =>
    match node.childByField "body" with
    | some body_node => traverse_receivers fuel cfg body_node
    | none => []

def switch_receivers : Nat → GenCfg → TSNode → List String
  | 0, _, _ => []
  | fuel+1, cfg, node =>
    match node.childByField "body" with
    | some body_node => cases_receivers fuel cfg body_node.children
    | none => []

def cases_receivers : Nat → GenCfg → TSList → List String
  | 0, _, _ => []
  | _+1, _, .nil => []
  | fuel+1, cfg, .cons _ child rest =>
    (if child.isNamed then traverse_receivers fuel cfg child else []) ++
      cases_receivers fuel cfg rest

def generic_receivers : Nat → GenCfg → TSNode → List String
  | 0, _, _ => []
  | fuel+1, cfg, node => children_receivers fuel cfg node.children

def children_receivers : Nat → GenCfg → TSList → List String
  | 0, _, _ => []
  | _+1, _, .nil => []
  | fuel+1, cfg, .cons _ child rest =>
    (if child.isNamed then dispatch_receivers fuel cfg child else []) ++
      children_receivers fuel cfg rest

def traverse_receivers : Nat → GenCfg → TSNode → List String
  | 0, _, _ => []
  | fuel+1, cfg, node =>
    if node.kind == "block" then children_receivers fuel cfg node.children
    else dispatch_receivers fuel cfg node
end

/-- Receivers gathered while rendering one method body. -/
def method_flow_receivers (fuel : Nat) (cfg : GenCfg) (method_node : TSNode) :
    List String :=
  match method_node.childByField "body" with
  | some body => children_receivers fuel cfg body.children
  | none => []

/-- Receivers gathered by a whole filtered render: nothing in collapse
mode, otherwise the receivers of every located target method's body walk. -/
def render_receivers (graph : CallGraph) (root : TSNode) (method_name : Option String)
    (ignored_variables ignored_services : List String) (collapse_details : Bool) :
    List String :=
  if collapse_details && method_name.isNone then []
  else
    (select_targets graph method_name).foldl
      (fun acc m =>
        match locate_target graph root m with
        | some mn => acc ++ method_flow_receivers (tree_fuel root)
            { graph := graph, ignored_variables := ignored_variables,
              ignored_services := ignored_services,
              collapse_details := collapse_details } mn
        | none => acc) []

/-! ## Output length accounting and monotone state growth (claim C6) -/

/-- Character count the final output owes to a list of lines: every Rust
push appends the line followed by one newline. -/
def lines_len : List String → Nat
  | [] => 0
  | l :: ls => l.length + 1 + lines_len ls

/-- Monotone evolution of the generator state: the output only ever grows
by appended lines and the node counter never decreases. -/
def StMono (st st' : GenSt) : Prop :=
  st.counter ≤ st'.counter ∧ ∃ t : List String, st'.out = st.out ++ t

/-! ## Concrete example programs

Each tree below is the tree-sitter parse tree (kinds, field names, byte
offsets, node texts) of the Java snippet quoted above it, and serves as a
concrete input for the theorems. -/

/-- Build a child list from (field name, node) pairs. -/
def tsl : List (Option String × TSNode) → TSList
  | [] => .nil
  | (f, n) :: rest => .cons f n (tsl rest)

/-- A named node. -/
def nnode (k : String) (s e : Nat) (t : String)
    (ch : List (Option String × TSNode)) : TSNode :=
  .mk k true s e t (tsl ch)

/-- An anonymous token node. -/
def anode (k : String) (s e : Nat) (t : String) : TSNode :=
  .mk k false s e t .nil

/-- Snippet A, `class A \x7b public void run() \x7b svc.ping(); data.fetch();
a.b.c(); \x7d \x7d`: the invocation `svc.ping()`. -/
def invA1 : TSNode :=
  nnode "method_invocation" 30 40 "svc.ping()"
    [ (some "object", nnode "identifier" 30 33 "svc" [])
    , (none, anode "." 33 34 ".")
    , (some "name", nnode "identifier" 34 38 "ping" [])
    , (some "arguments", nnode "argument_list" 38 40 "()"
        [ (none, anode "(" 38 39 "("), (none, anode ")" 39 40 ")") ]) ]

/-- Snippet A: the invocation `data.fetch()`. -/
def invA2 : TSNode :=
  nnode "method_invocation" 42 54 "data.fetch()"
    [ (some "object", nnode "identifier" 42 46 "data" [])
    , (none, anode "." 46 47 ".")
    , (some "name", nnode "identifier" 47 52 "fetch" [])
    , (some "arguments", nnode "argument_list" 52 54 "()"
        [ (none, anode "(" 52 53 "("), (none, anode ")" 53 54 ")") ]) ]

/-- Snippet A: the invocation `a.b.c()`, whose receiver is a field access. -/
def invA3 : TSNode :=
  nnode "method_invocation" 56 63 "a.b.c()"
    [ (some "object", nnode "field_access" 56 59 "a.b"
        [ (some "object", nnode "identifier" 56 57 "a" [])
        , (none, anode "." 57 58 ".")
        , (some "field", nnode "identifier" 58 59 "b" []) ])
    , (none, anode "." 59 60 ".")
    , (some "name", nnode "identifier" 60 61 "c" [])
    , (some "arguments", nnode "argument_list" 61 63 "()"
        [ (none, anode "(" 61 62 "("), (none, anode ")" 62 63 ")") ]) ]

/-- Snippet A: the body block of `run`. -/
def blockA : TSNode :=
  nnode "block" 28 66 "\x7b svc.ping(); data.fetch(); a.b.c(); \x7d"
    [ (none, anode "\x7b" 28 29 "\x7b")
    , (none, nnode "expression_statement" 30 41 "svc.ping();"
        [ (none, invA1), (none, anode ";" 40 41 ";") ])
    , (none, nnode "expression_statement" 42 55 "data.fetch();"
        [ (none, invA2), (none, anode ";" 54 55 ";") ])
    , (none, nnode "expression_statement" 56 64 "a.b.c();"
        [ (none, invA3), (none, anode ";" 63 64 ";") ])
    , (none, anode "\x7d" 65 66 "\x7d") ]

/-- Snippet A: the declaration of `run`. -/
def methodA : TSNode :=
  nnode "method_declaration" 10 66
    "public void run() \x7b svc.ping(); data.fetch(); a.b.c(); \x7d"
    [ (none, nnode "modifiers" 10 16 "public" [ (none, anode "public" 10 16 "public") ])
    , (some "type", nnode "void_type" 17 21 "void" [])
    , (some "name", nnode "identifier" 22 25 "run" [])
    , (some "parameters", nnode "formal_parameters" 25 27 "()"
        [ (none, anode "(" 25 26 "("), (none, anode ")" 26 27 ")") ])
    , (some "body", blockA) ]

/-- Snippet A: the whole source unit. -/
def rootA : TSNode :=
  nnode "program" 0 68
    "class A \x7b public void run() \x7b svc.ping(); data.fetch(); a.b.c(); \x7d \x7d"
    [ (none, nnode "class_declaration" 0 68
        "class A \x7b public void run() \x7b svc.ping(); data.fetch(); a.b.c(); \x7d \x7d"
        [ (none, anode "class" 0 5 "class")
        , (some "name", nnode "identifier" 6 7 "A" [])
        , (some "body", nnode "class_body" 8 68
            "\x7b public void run() \x7b svc.ping(); data.fetch(); a.b.c(); \x7d \x7d"
            [ (none, anode "\x7b" 8 9 "\x7b")
            , (none, methodA)
            , (none, anode "\x7d" 67 68 "\x7d") ]) ]) ]

/-- The call graph parsed from snippet A. -/
def graphA : CallGraph := JavaParser.parse rootA

/-- Snippet B, `class B \x7b public int check() \x7b return 1; \x7d public int go()
\x7b return check(); \x7d \x7d`: the statement `return 1;`. -/
def retB1 : TSNode :=
  nnode "return_statement" 31 40 "return 1;"
    [ (none, anode "return" 31 37 "return")
    , (none, nnode "decimal_integer_literal" 38 39 "1" [])
    , (none, anode ";" 39 40 ";") ]

/-- Snippet B: the declaration of `check`. -/
def methodB1 : TSNode :=
  nnode "method_declaration" 10 42 "public int check() \x7b return 1; \x7d"
    [ (none, nnode "modifiers" 10 16 "public" [ (none, anode "public" 10 16 "public") ])
    , (some "type", nnode "integral_type" 17 20 "int" [ (none, anode "int" 17 20 "int") ])
    , (some "name", nnode "identifier" 21 26 "check" [])
    , (some "parameters", nnode "formal_parameters" 26 28 "()"
        [ (none, anode "(" 26 27 "("), (none, anode ")" 27 28 ")") ])
    , (some "body", nnode "block" 29 42 "\x7b return 1; \x7d"
        [ (none, anode "\x7b" 29 30 "\x7b"), (none, retB1), (none, anode "\x7d" 41 42 "\x7d") ]) ]

/-- Snippet B: the receiverless invocation `check()` inside the return
expression of `go`. -/
def invB : TSNode :=
  nnode "method_invocation" 68 75 "check()"
    [ (some "name", nnode "identifier" 68 73 "check" [])
    , (some "arguments", nnode "argument_list" 73 75 "()"
        [ (none, anode "(" 73 74 "("), (none, anode ")" 74 75 ")") ]) ]

/-- Snippet B: the statement `return check();`. -/
def retB2 : TSNode :=
  nnode "return_statement" 61 76 "return check();"
    [ (none, anode "return" 61 67 "return")
    , (none, invB)
    , (none, anode ";" 75 76 ";") ]

/-- Snippet B: the declaration of `go`. -/
def methodB2 : TSNode :=
  nnode "method_declaration" 43 78 "public int go() \x7b return check(); \x7d"
    [ (none, nnode "modifiers" 43 49 "public" [ (none, anode "public" 43 49 "public") ])
    , (some "type", nnode "integral_type" 50 53 "int" [ (none, anode "int" 50 53 "int") ])
    , (some "name", nnode "identifier" 54 56 "go" [])
    , (some "parameters", nnode "formal_parameters" 56 58 "()"
        [ (none, anode "(" 56 57 "("), (none, anode ")" 57 58 ")") ])
    , (some "body", nnode "block" 59 78 "\x7b return check(); \x7d"
        [ (none, anode "\x7b" 59 60 "\x7b"), (none, retB2), (none, anode "\x7d" 77 78 "\x7d") ]) ]

/-- Snippet B: the whole source unit. -/
def rootB : TSNode :=
  nnode "program" 0 80
    "class B \x7b public int check() \x7b return 1; \x7d public int go() \x7b return check(); \x7d \x7d"
    [ (none, nnode "class_declaration" 0 80
        "class B \x7b public int check() \x7b return 1; \x7d public int go() \x7b return check(); \x7d \x7d"
        [ (none, anode "class" 0 5 "class")
        , (some "name", nnode "identifier" 6 7 "B" [])
        , (some "body", nnode "class_body" 8 80
            "\x7b public int check() \x7b return 1; \x7d public int go() \x7b return check(); \x7d \x7d"
            [ (none, anode "\x7b" 8 9 "\x7b")
            , (none, methodB1)
            , (none, methodB2)
            , (none, anode "\x7d" 79 80 "\x7d") ]) ]) ]

/-- The call graph parsed from snippet B. -/
def graphB : CallGraph := JavaParser.parse rootB

/-- Snippet R, `class R \x7b public void go() \x7b repository.save(); \x7d \x7d`: the
invocation `repository.save()`, whose receiver starts with (but is not
equal to) `repo`. -/
def invR : TSNode :=
  nnode "method_invocation" 29 46 "repository.save()"
    [ (some "object", nnode "identifier" 29 39 "repository" [])
    , (none, anode "." 39 40 ".")
    , (some "name", nnode "identifier" 40 44 "save" [])
    , (some "arguments", nnode "argument_list" 44 46 "()"
        [ (none, anode "(" 44 45 "("), (none, anode ")" 45 46 ")") ]) ]

/-- Snippet R: the declaration of `go`. -/
def methodR : TSNode :=
  nnode "method_declaration" 10 49 "public void go() \x7b repository.save(); \x7d"
    [ (none, nnode "modifiers" 10 16 "public" [ (none, anode "public" 10 16 "public") ])
    , (some "type", nnode "void_type" 17 21 "void" [])
    , (some "name", nnode "identifier" 22 24 "go" [])
    , (some "parameters", nnode "formal_parameters" 24 26 "()"
        [ (none, anode "(" 24 25 "("), (none, anode ")" 25 26 ")") ])
    , (some "body", nnode "block" 27 49 "\x7b repository.save(); \x7d"
        [ (none, anode "\x7b" 27 28 "\x7b")
        , (none, nnode "expression_statement" 29 47 "repository.save();"
            [ (none, invR), (none, anode ";" 46 47 ";") ])
        , (none, anode "\x7d" 48 49 "\x7d") ]) ]

/-- Snippet R: the whole source unit. -/
def rootR : TSNode :=
  nnode "program" 0 51 "class R \x7b public void go() \x7b repository.save(); \x7d \x7d"
    [ (none, nnode "class_declaration" 0 51
        "class R \x7b public void go() \x7b repository.save(); \x7d \x7d"
        [ (none, anode "class" 0 5 "class")
        , (some "name", nnode "identifier" 6 7 "R" [])
        , (some "body", nnode "class_body" 8 51
            "\x7b public void go() \x7b repository.save(); \x7d \x7d"
            [ (none, anode "\x7b" 8 9 "\x7b")
            , (none, methodR)
            , (none, anode "\x7d" 50 51 "\x7d") ]) ]) ]

/-- The call graph parsed from snippet R. -/
def graphR : CallGraph := JavaParser.parse rootR

/-- Snippet P, `class P \x7b private void h() \x7b\x7d \x7d`: a class whose only
method is private, so the public surface is empty. -/
def methodP : TSNode :=
  nnode "method_declaration" 10 29 "private void h() \x7b\x7d"
    [ (none, nnode "modifiers" 10 17 "private" [ (none, anode "private" 10 17 "private") ])
    , (some "type", nnode "void_type" 18 22 "void" [])
    , (some "name", nnode "identifier" 23 24 "h" [])
    , (some "parameters", nnode "formal_parameters" 24 26 "()"
        [ (none, anode "(" 24 25 "("), (none, anode ")" 25 26 ")") ])
    , (some "body", nnode "block" 27 29 "\x7b\x7d"
        [ (none, anode "\x7b" 27 28 "\x7b"), (none, anode "\x7d" 28 29 "\x7d") ]) ]

/-- Snippet P: the whole source unit. -/
def rootP : TSNode :=
  nnode "program" 0 31 "class P \x7b private void h() \x7b\x7d \x7d"
    [ (none, nnode "class_declaration" 0 31 "class P \x7b private void h() \x7b\x7d \x7d"
        [ (none, anode "class" 0 5 "class")
        , (some "name", nnode "identifier" 6 7 "P" [])
        , (some "body", nnode "class_body" 8 31 "\x7b private void h() \x7b\x7d \x7d"
            [ (none, anode "\x7b" 8 9 "\x7b")
            , (none, methodP)
            , (none, anode "\x7d" 30 31 "\x7d") ]) ]) ]

/-- The call graph parsed from snippet P. -/
def graphP : CallGraph := JavaParser.parse rootP

/-- Snippet D, `class D \x7b void f() \x7b\x7d int f() \x7b return 1; \x7d \x7d`: the first
declaration of `f`. -/
def methodD1 : TSNode :=
  nnode "method_declaration" 10 21 "void f() \x7b\x7d"
    [ (some "type", nnode "void_type" 10 14 "void" [])
    , (some "name", nnode "identifier" 15 16 "f" [])
    , (some "parameters", nnode "formal_parameters" 16 18 "()"
        [ (none, anode "(" 16 17 "("), (none, anode ")" 17 18 ")") ])
    , (some "body", nnode "block" 19 21 "\x7b\x7d"
        [ (none, anode "\x7b" 19 20 "\x7b"), (none, anode "\x7d" 20 21 "\x7d") ]) ]

/-- Snippet D: the second declaration of `f`, collected later. -/
def methodD2 : TSNode :=
  nnode "method_declaration" 22 43 "int f() \x7b return 1; \x7d"
    [ (some "type", nnode "integral_type" 22 25 "int" [ (none, anode "int" 22 25 "int") ])
    , (some "name", nnode "identifier" 26 27 "f" [])
    , (some "parameters", nnode "formal_parameters" 27 29 "()"
        [ (none, anode "(" 27 28 "("), (none, anode ")" 28 29 ")") ])
    , (some "body", nnode "block" 30 43 "\x7b return 1; \x7d"
        [ (none, anode "\x7b" 30 31 "\x7b")
        , (none, nnode "return_statement" 32 41 "return 1;"
            [ (none, anode "return" 32 38 "return")
            , (none, nnode "decimal_integer_literal" 39 40 "1" [])
            , (none, anode ";" 40 41 ";") ])
        , (none, anode "\x7d" 42 43 "\x7d") ]) ]

/-- Snippet D: the whole source unit, with two same-named declarations. -/
def rootD : TSNode :=
  nnode "program" 0 45 "class D \x7b void f() \x7b\x7d int f() \x7b return 1; \x7d \x7d"
    [ (none, nnode "class_declaration" 0 45
        "class D \x7b void f() \x7b\x7d int f() \x7b return 1; \x7d \x7d"
        [ (none, anode "class" 0 5 "class")
        , (some "name", nnode "identifier" 6 7 "D" [])
        , (some "body", nnode "class_body" 8 45
            "\x7b void f() \x7b\x7d int f() \x7b return 1; \x7d \x7d"
            [ (none, anode "\x7b" 8 9 "\x7b")
            , (none, methodD1)
            , (none, methodD2)
            , (none, anode "\x7d" 44 45 "\x7d") ]) ]) ]

/-- The receiver of `System.out.println(x)`. -/
def objS : TSNode :=
  nnode "field_access" 0 10 "System.out"
    [ (some "object", nnode "identifier" 0 6 "System" [])
    , (none, anode "." 6 7 ".")
    , (some "field", nnode "identifier" 7 10 "out" []) ]

/-- The invocation `System.out.println(x)`. -/
def invS : TSNode :=
  nnode "method_invocation" 0 21 "System.out.println(x)"
    [ (some "object", objS)
    , (none, anode "." 10 11 ".")
    , (some "name", nnode "identifier" 11 18 "println" [])
    , (some "arguments", nnode "argument_list" 18 21 "(x)"
        [ (none, anode "(" 18 19 "(")
        , (none, nnode "identifier" 19 20 "x" [])
        , (none, anode ")" 20 21 ")") ]) ]

/-- The statement `System.out.println(x);`. -/
def stmtS : TSNode :=
  nnode "expression_statement" 0 22 "System.out.println(x);"
    [ (none, invS), (none, anode ";" 21 22 ";") ]

/-- A receiverless invocation `helper()` of a name no registry of this file
declares. -/
def invH : TSNode :=
  nnode "method_invocation" 0 8 "helper()"
    [ (some "name", nnode "identifier" 0 6 "helper" [])
    , (some "arguments", nnode "argument_list" 6 8 "()"
        [ (none, anode "(" 6 7 "("), (none, anode ")" 7 8 ")") ]) ]

/-! ## Basic lemmas about the map and set models -/

theorem mem_insertDedup (s : List String) (x y : String) :
    y ∈ insertDedup s x ↔ y ∈ s ∨ y = x := by
  unfold insertDedup
  by_cases h : s.contains x
  · rw [if_pos h]
    have hx : x ∈ s := by simpa using h
    constructor
    · exact Or.inl
    · rintro (hy | rfl)
      · exact hy
      · exact hx
  · rw [if_neg h]
    simp [List.mem_append]

theorem insert_all_append (s : List String) (l1 l2 : List String) :
    insert_all s (l1 ++ l2) = insert_all (insert_all s l1) l2 := by
  induction l1 generalizing s with
  | nil => rfl
  | cons x xs ih => simp only [List.cons_append, insert_all]; exact ih _

theorem mem_insert_all (s l : List String) (y : String) :
    y ∈ insert_all s l ↔ y ∈ s ∨ y ∈ l := by
  induction l generalizing s with
  | nil => simp [insert_all]
  | cons x xs ih =>
    simp only [insert_all, ih, mem_insertDedup, List.mem_cons]
    tauto

theorem mapContains_iff {α : Type} (m : List (String × α)) (k : String) :
    mapContains m k = true ↔ ∃ v, (k, v) ∈ m := by
  unfold mapContains
  simp only [List.any_eq_true, beq_iff_eq]
  constructor
  · rintro ⟨p, hp, rfl⟩
    exact ⟨p.2, hp⟩
  · rintro ⟨v, hv⟩
    exact ⟨(k, v), hv, rfl⟩

theorem mapContains_mapInsert_self {α : Type} (m : List (String × α)) (k : String) (v : α) :
    mapContains (mapInsert m k v) k = true := by
  simp [mapInsert, mapContains]

theorem mapContains_mapInsert_mono {α : Type} (m : List (String × α)) (k k' : String) (v : α)
    (h : mapContains m k' = true) : mapContains (mapInsert m k v) k' = true := by
  by_cases hkk : k' = k
  · subst hkk; exact mapContains_mapInsert_self m k' v
  · rw [mapContains_iff] at h ⊢
    obtain ⟨w, hw⟩ := h
    refine ⟨w, ?_⟩
    unfold mapInsert
    refine List.mem_cons_of_mem _ (List.mem_filter.mpr ⟨hw, ?_⟩)
    simpa using hkk

theorem mapLookup_mapInsert_self {α : Type} (m : List (String × α)) (k : String) (v : α) :
    mapLookup (mapInsert m k v) k = some v := by
  simp [mapLookup, mapInsert, List.find?]

theorem find?_filter_other {α : Type} (m : List (String × α)) (k k' : String)
    (h : k' ≠ k) :
    List.find? (fun p => p.1 == k') (m.filter (fun p => !(p.1 == k))) =
      List.find? (fun p => p.1 == k') m := by
  induction m with
  | nil => rfl
  | cons p ps ih =>
    by_cases hp : p.1 = k
    · have h1 : (!(p.1 == k)) = false := by simp [hp]
      have h2 : (p.1 == k') = false := by simp [hp, Ne.symm h]
      simp only [List.filter_cons, h1, if_false]
      rw [List.find?_cons_of_neg _ (by simp [h2])]
      exact ih
    · have h1 : (!(p.1 == k)) = true := by simp [hp]
      simp only [List.filter_cons, h1, if_true]
      by_cases hp' : p.1 = k'
      · rw [List.find?_cons_of_pos _ (by simpa using hp'),
          List.find?_cons_of_pos _ (by simpa using hp')]
      · rw [List.find?_cons_of_neg _ (by simpa using hp'),
          List.find?_cons_of_neg _ (by simpa using hp')]
        exact ih

theorem mapLookup_mapInsert_ne {α : Type} (m : List (String × α)) (k k' : String) (v : α)
    (h : k' ≠ k) : mapLookup (mapInsert m k v) k' = mapLookup m k' := by
  unfold mapLookup mapInsert
  rw [List.find?_cons_of_neg _ (by simpa using Ne.symm h)]
  rw [find?_filter_other m k k' h]

theorem keysNodup_nil {α : Type} : KeysNodup ([] : List (String × α)) := by
  simp [KeysNodup]

theorem keysNodup_mapInsert {α : Type} (m : List (String × α)) (k : String) (v : α)
    (h : KeysNodup m) : KeysNodup (mapInsert m k v) := by
  unfold KeysNodup mapInsert
  simp only [List.map_cons, List.nodup_cons]
  constructor
  · intro hk
    obtain ⟨p, hp, hpk⟩ := List.mem_map.mp hk
    have := (List.mem_filter.mp hp).2
    simp [hpk] at this
  · unfold KeysNodup at h
    exact List.Nodup.sublist ((List.filter_sublist m).map Prod.fst) h

theorem countP_eq_one_of_keysNodup {α : Type} (m : List (String × α)) (k : String)
    (hn : KeysNodup m) (hc : mapContains m k = true) :
    m.countP (fun p => p.1 == k) = 1 := by
  induction m with
  | nil => simp [mapContains] at hc
  | cons p ps ih =>
    unfold KeysNodup at hn
    simp only [List.map_cons, List.nodup_cons] at hn
    by_cases hp : p.1 = k
    · rw [List.countP_cons_of_pos _ _ (by simpa using hp)]
      have : ps.countP (fun q => q.1 == k) = 0 := by
        rw [List.countP_eq_zero]
        intro q hq
        simp only [beq_iff_eq]
        intro hqk
        exact hn.1 (hp ▸ hqk ▸ List.mem_map.mpr ⟨q, hq, rfl⟩)
      omega
    · rw [List.countP_cons_of_neg _ _ (by simpa using hp)]
      apply ih hn.2
      unfold mapContains at hc ⊢
      simp only [List.any_cons, Bool.or_eq_true] at hc
      rcases hc with hc | hc
      · exact absurd (by simpa using hc) hp
      · exact hc

/-! ## The sort model is an ascending sort -/

theorem list_le_chars_cons (x y : Char) (xs ys : List Char) :
    list_le_chars (x :: xs) (y :: ys) = true ↔
      x < y ∨ (x = y ∧ list_le_chars xs ys = true) := by
  simp only [list_le_chars]
  rcases lt_trichotomy x y with h | h | h
  · simp [h]
  · subst h; simp [lt_irrefl]
  · rw [if_neg (not_lt_of_gt h), if_pos h]
    constructor
    · intro hf; exact absurd hf (by simp)
    · rintro (hlt | ⟨he, _⟩)
      · exact absurd hlt (not_lt_of_gt h)
      · exact absurd he (ne_of_gt h)

theorem list_le_chars_total : ∀ a b, list_le_chars a b = true ∨ list_le_chars b a = true := by
  intro a
  induction a with
  | nil => intro b; left; rfl
  | cons x xs ih =>
    intro b
    cases b with
    | nil => right; rfl
    | cons y ys =>
      rcases lt_trichotomy x y with h | h | h
      · left; rw [list_le_chars_cons]; exact Or.inl h
      · subst h
        rcases ih ys with h2 | h2
        · left; rw [list_le_chars_cons]; exact Or.inr ⟨rfl, h2⟩
        · right; rw [list_le_chars_cons]; exact Or.inr ⟨rfl, h2⟩
      · right; rw [list_le_chars_cons]; exact Or.inl h

theorem list_le_chars_trans : ∀ a b c, list_le_chars a b = true → list_le_chars b c = true →
    list_le_chars a c = true := by
  intro a
  induction a with
  | nil => intro b c _ _; rfl
  | cons x xs ih =>
    intro b c hab hbc
    cases b with
    | nil => simp [list_le_chars] at hab
    | cons y ys =>
      cases c with
      | nil => simp [list_le_chars] at hbc
      | cons z zs =>
        rw [list_le_chars_cons] at hab hbc ⊢
        rcases hab with h1 | ⟨h1, h1'⟩
        · rcases hbc with h2 | ⟨h2, _⟩
          · exact Or.inl (lt_trans h1 h2)
          · subst h2; exact Or.inl h1
        · subst h1
          rcases hbc with h2 | ⟨h2, h2'⟩
          · exact Or.inl h2
          · subst h2; exact Or.inr ⟨rfl, ih _ _ h1' h2'⟩

theorem str_le_total (a b : String) : str_le a b = true ∨ str_le b a = true :=
  list_le_chars_total a.toList b.toList

theorem str_le_trans {a b c : String} (h1 : str_le a b = true) (h2 : str_le b c = true) :
    str_le a c = true :=
  list_le_chars_trans a.toList b.toList c.toList h1 h2

theorem mem_insort (x : String) (l : List String) (y : String) :
    y ∈ insort x l ↔ y = x ∨ y ∈ l := by
  induction l with
  | nil => simp [insort]
  | cons z zs ih =>
    unfold insort
    by_cases h : str_le x z
    · rw [if_pos h]; simp [List.mem_cons]
    · rw [if_neg h]
      simp only [List.mem_cons, ih]
      tauto

theorem mem_sort_strings (l : List String) (y : String) :
    y ∈ sort_strings l ↔ y ∈ l := by
  induction l with
  | nil => simp [sort_strings]
  | cons x xs ih =>
    unfold sort_strings
    rw [mem_insort, ih]
    simp [List.mem_cons]

theorem strSorted_insort (x : String) (l : List String) (h : StrSorted l) :
    StrSorted (insort x l) := by
  induction l with
  | nil => simp [insort, StrSorted]
  | cons z zs ih =>
    unfold StrSorted at h
    rw [List.pairwise_cons] at h
    unfold insort
    by_cases hle : str_le x z
    · rw [if_pos hle]
      unfold StrSorted
      rw [List.pairwise_cons]
      constructor
      · intro a ha
        rcases List.mem_cons.mp ha with rfl | ha2
        · exact hle
        · exact str_le_trans hle (h.1 a ha2)
      · rw [List.pairwise_cons]
        exact h
    · rw [if_neg hle]
      unfold StrSorted
      rw [List.pairwise_cons]
      constructor
      · intro a ha
        rcases (mem_insort x zs a).mp ha with hax | ha2
        · subst hax
          rcases str_le_total a z with htot | htot
          · exact absurd htot hle
          · exact htot
        · exact h.1 a ha2
      · exact ih h.2

theorem strSorted_sort_strings (l : List String) : StrSorted (sort_strings l) := by
  induction l with
  | nil => exact List.Pairwise.nil
  | cons x xs ih => exact strSorted_insort x _ ih

/-! ## Target selection facts (groundwork for claim C5) -/

theorem select_targets_some_present (g : CallGraph) (n : String)
    (h : mapContains g.nodes n = true) : select_targets g (some n) = [n] := by
  simp [select_targets, h]

theorem select_targets_some_absent (g : CallGraph) (n : String)
    (h : mapContains g.nodes n = false) : select_targets g (some n) = [] := by
  simp [select_targets, h]

theorem select_targets_none_sorted (g : CallGraph) : StrSorted (select_targets g none) :=
  strSorted_sort_strings _

theorem select_targets_none_mem (g : CallGraph) (m : String) :
    m ∈ select_targets g none ↔
      ∃ info : MethodNode, (m, info) ∈ g.nodes ∧
        ("public" ∈ info.modifiers ∨ "protected" ∈ info.modifiers) := by
  unfold select_targets
  rw [mem_sort_strings]
  simp only [List.mem_map, List.mem_filter, Bool.or_eq_true]
  constructor
  · rintro ⟨p, ⟨hp, hmods⟩, rfl⟩
    refine ⟨p.2, hp, ?_⟩
    rcases hmods with hm | hm
    · exact Or.inl (by simpa using hm)
    · exact Or.inr (by simpa using hm)
  · rintro ⟨info, hmem, hmods⟩
    refine ⟨(m, info), ⟨hmem, ?_⟩, rfl⟩
    rcases hmods with hm | hm
    · exact Or.inl (by simpa using hm)
    · exact Or.inr (by simpa using hm)

/-! ## Invariants of the declaration collector (groundwork for C7, C8) -/

theorem mapContains_mapInsert_iff {α : Type} (m : List (String × α)) (k k' : String) (v : α) :
    mapContains (mapInsert m k v) k' = true ↔ k' = k ∨ mapContains m k' = true := by
  constructor
  · intro h
    rw [mapContains_iff] at h
    obtain ⟨w, hw⟩ := h
    unfold mapInsert at hw
    rcases List.mem_cons.mp hw with he | hf
    · left; exact congrArg Prod.fst he
    · right
      rw [mapContains_iff]
      exact ⟨w, (List.mem_filter.mp hf).1⟩
  · rintro (rfl | h)
    · exact mapContains_mapInsert_self m k' v
    · exact mapContains_mapInsert_mono m k k' v h

theorem collect_inv_insert (methods : List (String × MethodNode))
    (decls : List (String × TSNode)) (child : TSNode) (nm : String × MethodNode)
    (hext : extract_method_decl child = some nm)
    (h : CollectInv (methods, decls)) :
    CollectInv (mapInsert methods nm.1 nm.2, decls ++ [(nm.1, child)]) := by
  obtain ⟨hlook, hnodup, hmem⟩ := h
  refine ⟨?_, keysNodup_mapInsert _ _ _ hnodup, ?_⟩
  · intro n
    by_cases hn : n = nm.1
    · subst hn
      rw [mapLookup_mapInsert_self]
      unfold last_decl_entry
      rw [List.filter_append]
      have hfil : List.filter (fun p => p.1 == nm.1) [(nm.1, child)] = [(nm.1, child)] := by
        simp
      rw [hfil, List.getLast?_concat]
      simp [hext]
    · rw [mapLookup_mapInsert_ne _ _ _ _ hn]
      unfold last_decl_entry at *
      rw [List.filter_append]
      have : List.filter (fun p => p.1 == n) [(nm.1, child)] = [] := by
        simp [Ne.symm hn]
      rw [this, List.append_nil]
      exact hlook n
  · intro p hp
    rcases List.mem_append.mp hp with hold | hnew
    · exact mapContains_mapInsert_mono _ _ _ _ (hmem p hold)
    · simp only [List.mem_singleton] at hnew
      subst hnew
      exact mapContains_mapInsert_self _ _ _

mutual
theorem collect_inv_node : ∀ (n : TSNode) (acc), CollectInv acc →
    CollectInv (collect_method_declarations n acc) := by
  intro n acc h
  cases n with
  | mk k b s e t ch =>
    simp only [collect_method_declarations]
    exact collect_inv_list ch acc h

theorem collect_inv_list : ∀ (l : TSList) (acc), CollectInv acc →
    CollectInv (collect_decl_children l acc) := by
  intro l acc h
  cases l with
  | nil => simpa only [collect_decl_children] using h
  | cons f child rest =>
    simp only [collect_decl_children]
    apply collect_inv_list
    by_cases hk : (child.kind == "method_declaration") = true
    · rw [if_pos hk]
      cases hext : extract_method_decl child with
      | none => simpa using h
      | some nm =>
        obtain ⟨m, d⟩ := acc
        exact collect_inv_insert m d child nm hext h
    · rw [if_neg hk]
      by_cases hc : (child.kind == "class_declaration" || child.kind == "class_body") = true
      · rw [if_pos hc]
        exact collect_inv_node child acc h
      · rw [if_neg hc]
        exact h
end

theorem collect_inv_start : CollectInv (([] : List (String × MethodNode)),
    ([] : List (String × TSNode))) := by
  refine ⟨fun n => rfl, keysNodup_nil, ?_⟩
  intro p hp
  simp at hp

theorem collect_inv_root (root : TSNode) :
    CollectInv (collect_method_declarations root ([], [])) :=
  collect_inv_node root ([], []) collect_inv_start

/-- Keys of the folded calls map come from the initial map or the
declaration list. -/
theorem mapContains_foldl_mapInsert (decls : List (String × TSNode))
    (names : List String) (acc : List (String × List String)) (k : String)
    (h : mapContains
        (decls.foldl (fun a p => mapInsert a p.1 (find_calls p.2 names)) acc) k = true) :
    mapContains acc k = true ∨ ∃ p ∈ decls, p.1 = k := by
  induction decls generalizing acc with
  | nil => exact Or.inl h
  | cons q qs ih =>
    simp only [List.foldl_cons] at h
    rcases ih _ h with h0 | ⟨p, hp, rfl⟩
    · rcases (mapContains_mapInsert_iff _ _ _ _).mp h0 with rfl | h1
      · exact Or.inr ⟨q, List.mem_cons_self _ _, rfl⟩
      · exact Or.inl h1
    · exact Or.inr ⟨p, List.mem_cons_of_mem _ hp, rfl⟩

/-- `invocation_step` contributes exactly `head_call` to the call list and
exactly `head_receiver` to the external set. -/
theorem invocation_step_eq (cfg : GenCfg) (node : TSNode)
    (acc : List CallInfo × List String) :
    invocation_step cfg node acc =
      (acc.1 ++ (head_call cfg node).toList,
       match head_receiver cfg node with
       | some r => insertDedup acc.2 r
       | none => acc.2) := by
  unfold invocation_step head_call head_receiver should_ignore_invocation
  by_cases hk : (node.kind == "method_invocation") = true
  · rw [if_pos hk, if_pos hk, if_pos hk]
    cases hname : node.childByField "name" with
    | none => simp
    | some name_node =>
      simp only []
      cases hobj : node.childByField "object" with
      | none =>
        simp only [hobj]
        by_cases hcon : mapContains cfg.graph.nodes name_node.text = true
        · simp [hcon]
        · simp only [Bool.not_eq_true] at hcon
          simp [hcon]
      | some obj_node =>
        simp only [hobj]
        by_cases higt :
            ((cfg.ignored_services.any (fun svc =>
               starts_with_str node.text svc || obj_node.text == svc))
             || (cfg.ignored_variables.any (fun v =>
               obj_node.text == v || starts_with_str obj_node.text (v ++ ".")))) = true
        · simp [higt]
        · simp only [Bool.or_eq_true, not_or] at higt
          obtain ⟨h1, h2⟩ := higt
          simp only [Bool.not_eq_true] at h1 h2
          by_cases hthis : (obj_node.text == "this") = true
          · simp [h1, h2, hthis]
          · simp only [Bool.not_eq_true] at hthis
            simp [h1, h2, hthis]
  · rw [if_neg hk, if_neg hk, if_neg hk]
    simp

mutual
/-- `collect_calls_recursive` appends exactly the per-node call records of
the subtree, in preorder, and extends the external set with exactly the
per-node receivers. -/
theorem collect_calls_eq : ∀ (n : TSNode) (cfg : GenCfg)
    (acc : List CallInfo × List String),
    collect_calls_recursive cfg n acc =
      (acc.1 ++ (preorder_nodes n).filterMap (head_call cfg),
       insert_all acc.2 ((preorder_nodes n).filterMap (head_receiver cfg))) := by
  intro n cfg acc
  cases n with
  | mk k b s e t ch =>
    simp only [collect_calls_recursive, preorder_nodes]
    rw [invocation_step_eq, collect_children_eq]
    cases hcall : head_call cfg (TSNode.mk k b s e t ch) with
    | none =>
      cases hrecv : head_receiver cfg (TSNode.mk k b s e t ch) with
      | none => simp [List.filterMap_cons, hcall, hrecv]
      | some r => simp [List.filterMap_cons, hcall, hrecv, insert_all]
    | some c =>
      cases hrecv : head_receiver cfg (TSNode.mk k b s e t ch) with
      | none => simp [List.filterMap_cons, hcall, hrecv]
      | some r => simp [List.filterMap_cons, hcall, hrecv, insert_all]

theorem collect_children_eq : ∀ (l : TSList) (cfg : GenCfg)
    (acc : List CallInfo × List String),
    collect_calls_children cfg l acc =
      (acc.1 ++ (preorder_children l).filterMap (head_call cfg),
       insert_all acc.2 ((preorder_children l).filterMap (head_receiver cfg))) := by
  intro l cfg acc
  cases l with
  | nil => simp [collect_calls_children, preorder_children, insert_all]
  | cons f n rest =>
    simp only [collect_calls_children, preorder_children]
    rw [collect_calls_eq, collect_children_eq]
    rw [List.filterMap_append, List.filterMap_append, insert_all_append,
      List.append_assoc]
end

/-! ## The external-service set threaded through the renderer (claim C1) -/

theorem externals_next_id (st : GenSt) : (next_id st).2.externals = st.externals := rfl

theorem externals_push_line (st : GenSt) (l : String) :
    (push_line st l).externals = st.externals := rfl

theorem externals_push_edges (st : GenSt) (prevs : List String) (label : Option String)
    (target : String) : (push_edges st prevs label target).externals = st.externals := by
  unfold push_edges
  induction prevs generalizing st with
  | nil => rfl
  | cons p ps ih =>
    rw [List.foldl_cons]
    exact (ih _).trans rfl

theorem externals_emit_call_nodes (calls : List CallInfo) (prevs : List String)
    (label : Option String) (st : GenSt) :
    (emit_call_nodes calls prevs label st).2.2.externals = st.externals := by
  induction calls generalizing prevs label st with
  | nil => rfl
  | cons c rest ih =>
    obtain ⟨name, ext, raw, off⟩ := c
    simp only [emit_call_nodes]
    rw [ih, externals_push_edges]
    rfl

theorem externals_process_expression (cfg : GenCfg) (node : TSNode)
    (prev_ids : List String) (label : Option String) (st : GenSt) :
    (process_expression_with_label cfg node prev_ids label st).2.externals =
      insert_all st.externals (collect_receivers cfg node) := by
  unfold process_expression_with_label find_calls_in_node collect_receivers
  rw [collect_calls_eq]
  simp only [List.nil_append]
  by_cases hempty :
      (((preorder_nodes node).filterMap (head_call cfg)).isEmpty
        && !(node.kind == "return_statement")) = true
  · rw [if_pos hempty]
  · rw [if_neg hempty]
    by_cases hret : (node.kind == "return_statement") = true
    · simp [hret, externals_push_edges, externals_push_line, externals_next_id,
        externals_emit_call_nodes]
    · simp only [Bool.not_eq_true] at hret
      simp [hret, externals_emit_call_nodes]

mutual
theorem externals_dispatch : ∀ (fuel : Nat) (cfg : GenCfg) (node : TSNode)
    (prevs : List String) (label : Option String) (st : GenSt),
    (dispatch_node fuel cfg node prevs label st).2.externals =
      insert_all st.externals (dispatch_receivers fuel cfg node) := by
  intro fuel cfg node prevs label st
  match fuel with
  | 0 => rfl
  | fuel+1 =>
    simp only [dispatch_node, dispatch_receivers]
    by_cases h1 : (node.kind == "expression_statement"
        || node.kind == "local_variable_declaration"
        || node.kind == "return_statement") = true
    · rw [if_pos h1, if_pos h1]
      exact externals_process_expression cfg node prevs label st
    · rw [if_neg h1, if_neg h1]
      by_cases h2 : (node.kind == "if_statement") = true
      · rw [if_pos h2, if_pos h2]
        exact externals_process_if fuel cfg node prevs label st
      · rw [if_neg h2, if_neg h2]
        by_cases h3 : (node.kind == "for_statement" || node.kind == "while_statement"
            || node.kind == "do_statement" || node.kind == "enhanced_for_statement") = true
        · rw [if_pos h3, if_pos h3]
          exact externals_process_loop fuel cfg node prevs label st
        · rw [if_neg h3, if_neg h3]
          by_cases h4 : (node.kind == "switch_expression"
              || node.kind == "switch_statement") = true
          · rw [if_pos h4, if_pos h4]
            exact externals_process_switch fuel cfg node prevs label st
          · rw [if_neg h4, if_neg h4]
            exact externals_process_generic fuel cfg node prevs label st

theorem externals_process_if : ∀ (fuel : Nat) (cfg : GenCfg) (node : TSNode)
    (prevs : List String) (label : Option String) (st : GenSt),
    (process_if_with_label fuel cfg node prevs label st).2.externals =
      insert_all st.externals (if_receivers fuel cfg node) := by
  intro fuel cfg node prevs label st
  match fuel with
  | 0 => rfl
  | fuel+1 =>
    simp only [process_if_with_label, if_receivers]
    cases hcond : node.childByField "condition" with
    | none => rfl
    | some condition_node =>
      simp only [find_calls_in_node]
      rw [collect_calls_eq]
      simp only [List.nil_append]
      cases hcons : node.childByField "consequence" with
      | none =>
        simp only [externals_push_edges, externals_push_line, externals_next_id,
          externals_emit_call_nodes, collect_receivers, List.append_nil]
      | some consequence =>
        cases halt : node.childByField "alternative" with
        | some alternative =>
          simp only []
          rw [externals_traverse fuel cfg alternative, externals_traverse fuel cfg consequence]
          simp only [externals_push_edges, externals_push_line, externals_next_id,
            externals_emit_call_nodes, collect_receivers]
          rw [insert_all_append, insert_all_append]
        | none =>
          simp only []
          rw [externals_traverse fuel cfg consequence]
          simp only [externals_push_edges, externals_push_line, externals_next_id,
            externals_emit_call_nodes, collect_receivers, List.append_nil]
          rw [insert_all_append]

theorem externals_process_loop : ∀ (fuel : Nat) (cfg : GenCfg) (node : TSNode)
    (prevs : List String) (label : Option String) (st : GenSt),
    (process_loop_with_label fuel cfg node prevs label st).2.externals =
      insert_all st.externals (loop_receivers fuel cfg node) := by
  intro fuel cfg node prevs label st
  match fuel with
  | 0 => rfl
  | fuel+1 =>
    simp only [process_loop_with_label, loop_receivers]
    have hfold : ∀ (ids : List String) (s : GenSt) (loop_id : String),
        (ids.foldl (fun s2 e =>
          if e == loop_id then s2
          else push_line s2 ("    " ++ e ++ " -.->|repeat| " ++ loop_id)) s).externals =
          s.externals := by
      intro ids
      induction ids with
      | nil => intro s lid; rfl
      | cons x xs ih =>
        intro s lid
        rw [List.foldl_cons]
        by_cases hx : (x == lid) = true
        · rw [if_pos hx]; exact ih s lid
        · rw [if_neg hx]; exact (ih _ lid).trans rfl
    cases hbody : node.childByField "body" with
    | none =>
      simp only [hfold, externals_push_edges, externals_push_line, externals_next_id]
      rfl
    | some body_node =>
      simp only [hfold]
      rw [externals_traverse fuel cfg body_node]
      simp only [externals_push_edges, externals_push_line, externals_next_id]

theorem externals_process_switch : ∀ (fuel : Nat) (cfg : GenCfg) (node : TSNode)
    (prevs : List String) (label : Option String) (st : GenSt),
    (process_switch_with_label fuel cfg node prevs label st).2.externals =
      insert_all st.externals (switch_receivers fuel cfg node) := by
  intro fuel cfg node prevs label st
  match fuel with
  | 0 => rfl
  | fuel+1 =>
    simp only [process_switch_with_label, switch_receivers]
    cases hbody : node.childByField "body" with
    | none =>
      rw [if_pos (List.isEmpty_nil)]
      simp only [externals_push_edges, externals_push_line, externals_next_id]
      rfl
    | some body_node =>
      simp only []
      split
      · simp only []
        rw [externals_switch_cases fuel cfg]
        simp only [externals_push_edges, externals_push_line, externals_next_id]
      · simp only []
        rw [externals_switch_cases fuel cfg]
        simp only [externals_push_edges, externals_push_line, externals_next_id]

theorem externals_switch_cases : ∀ (fuel : Nat) (cfg : GenCfg) (switch_id : String)
    (l : TSList) (exits : List String) (st : GenSt),
    (switch_cases fuel cfg switch_id l exits st).2.externals =
      insert_all st.externals (cases_receivers fuel cfg l) := by
  intro fuel cfg switch_id l exits st
  match fuel, l with
  | 0, _ => rfl
  | fuel+1, .nil => rfl
  | fuel+1, .cons f child rest =>
    simp only [switch_cases, cases_receivers]
    by_cases hn : child.isNamed = true
    · rw [if_pos hn, if_pos hn]
      rw [externals_switch_cases fuel cfg switch_id rest]
      rw [externals_traverse fuel cfg child]
      rw [insert_all_append]
    · rw [if_neg hn, if_neg hn]
      rw [externals_switch_cases fuel cfg switch_id rest]
      simp only [List.nil_append]

theorem externals_process_generic : ∀ (fuel : Nat) (cfg : GenCfg) (node : TSNode)
    (prevs : List String) (label : Option String) (st : GenSt),
    (process_generic_recursive_with_label fuel cfg node prevs label st).2.externals =
      insert_all st.externals (generic_receivers fuel cfg node) := by
  intro fuel cfg node prevs label st
  match fuel with
  | 0 => rfl
  | fuel+1 =>
    simp only [process_generic_recursive_with_label, generic_receivers]
    exact externals_dispatch_children fuel cfg node.children prevs label st

theorem externals_dispatch_children : ∀ (fuel : Nat) (cfg : GenCfg) (l : TSList)
    (prevs : List String) (label : Option String) (st : GenSt),
    (dispatch_children fuel cfg l prevs label st).2.externals =
      insert_all st.externals (children_receivers fuel cfg l) := by
  intro fuel cfg l prevs label st
  match fuel, l with
  | 0, _ => rfl
  | fuel+1, .nil => rfl
  | fuel+1, .cons f child rest =>
    simp only [dispatch_children, children_receivers]
    by_cases hn : child.isNamed = true
    · rw [if_pos hn, if_pos hn]
      by_cases hr : ((dispatch_node fuel cfg child prevs label st).1 == prevs) = true
      · rw [if_pos hr]
        rw [externals_dispatch_children fuel cfg rest]
        rw [externals_dispatch fuel cfg child]
        rw [insert_all_append]
      · rw [if_neg hr]
        rw [externals_dispatch_children fuel cfg rest]
        rw [externals_dispatch fuel cfg child]
        rw [insert_all_append]
    · rw [if_neg hn, if_neg hn]
      rw [externals_dispatch_children fuel cfg rest]
      simp only [List.nil_append]

theorem externals_traverse : ∀ (fuel : Nat) (cfg : GenCfg) (node : TSNode)
    (prevs : List String) (label : Option String) (st : GenSt),
    (traverse_node_with_label fuel cfg node prevs label st).2.externals =
      insert_all st.externals (traverse_receivers fuel cfg node) := by
  intro fuel cfg node prevs label st
  match fuel with
  | 0 => rfl
  | fuel+1 =>
    simp only [traverse_node_with_label, traverse_receivers]
    by_cases hb : (node.kind == "block") = true
    · rw [if_pos hb, if_pos hb]
      exact externals_dispatch_children fuel cfg node.children prevs label st
    · rw [if_neg hb, if_neg hb]
      exact externals_dispatch fuel cfg node prevs label st
end

theorem externals_push_fold (ids : List String) (pre mid post : String) (st : GenSt) :
    (ids.foldl (fun s p => push_line s (pre ++ p ++ mid ++ post)) st).externals =
      st.externals := by
  induction ids generalizing st with
  | nil => rfl
  | cons x xs ih =>
    rw [List.foldl_cons]
    exact (ih _).trans rfl

theorem externals_generate_method_flow (fuel : Nat) (cfg : GenCfg)
    (method_node : TSNode) (method_name : String) (st : GenSt) :
    (generate_method_flow fuel cfg method_node method_name st).externals =
      insert_all st.externals (method_flow_receivers fuel cfg method_node) := by
  unfold generate_method_flow method_flow_receivers traverse_block
  cases hbody : method_node.childByField "body" with
  | none => rfl
  | some body =>
    simp only []
    simp only [externals_push_line]
    rw [externals_push_fold]
    simp only [externals_next_id]
    rw [externals_dispatch_children fuel cfg body.children]
    simp only [externals_push_line, externals_next_id]

theorem render_gather_fold_append (targets : List String) (graph : CallGraph)
    (root : TSNode) (cfg : GenCfg) (acc : List String) :
    targets.foldl (fun a m =>
      match locate_target graph root m with
      | some mn => a ++ method_flow_receivers (tree_fuel root) cfg mn
      | none => a) acc =
    acc ++ targets.foldl (fun a m =>
      match locate_target graph root m with
      | some mn => a ++ method_flow_receivers (tree_fuel root) cfg mn
      | none => a) [] := by
  induction targets generalizing acc with
  | nil => simp
  | cons m rest ih =>
    rw [List.foldl_cons, List.foldl_cons]
    cases hloc : locate_target graph root m with
    | none =>
      simp only []
      exact ih acc
    | some mn =>
      simp only []
      rw [ih (acc ++ _), ih ([] ++ _)]
      simp [List.append_assoc]

theorem render_fold_receivers (targets : List String) (graph : CallGraph)
    (root : TSNode) (cfg : GenCfg) (st : GenSt) :
    (targets.foldl (fun s m =>
      match locate_target graph root m with
      | some mn => generate_method_flow (tree_fuel root) cfg mn m s
      | none => s) st).externals =
    insert_all st.externals (targets.foldl (fun a m =>
      match locate_target graph root m with
      | some mn => a ++ method_flow_receivers (tree_fuel root) cfg mn
      | none => a) []) := by
  induction targets generalizing st with
  | nil => rfl
  | cons m rest ih =>
    rw [List.foldl_cons, List.foldl_cons]
    cases hloc : locate_target graph root m with
    | none =>
      simp only []
      exact ih st
    | some mn =>
      simp only []
      rw [render_gather_fold_append, ih, externals_generate_method_flow]
      simp only [List.nil_append]
      rw [insert_all_append]

theorem externals_collapse_fold (targets : List String) (st : GenSt) :
    (targets.foldl (fun s m =>
      push_line (next_id s).2
        ("    " ++ (next_id s).1 ++ "([\"" ++ m ++ "\"]):::public")) st).externals =
      st.externals := by
  induction targets generalizing st with
  | nil => rfl
  | cons m rest ih =>
    rw [List.foldl_cons]
    exact (ih _).trans rfl

/-- C1 (amended): a name appears in the external_services list of a
filtered render exactly when it is the full receiver text (an entire object
expression, not the prefix before the first dot) of some invocation with a
receiver other than `this` that the renderer's flow walk visits in a
located target method and that the ignored_services / ignored_variables
filters do not suppress; suppressed calls contribute nothing, and the
collapse overview contributes nothing. -/
theorem C1_external_services_characterization (graph : CallGraph) (root : TSNode)
    (method_name : Option String) (ignored_variables ignored_services : List String)
    (collapse_details : Bool) (x : String) :
    x ∈ (generate_mermaid_filtered graph root method_name ignored_variables
        ignored_services collapse_details).external_services ↔
      x ∈ render_receivers graph root method_name ignored_variables ignored_services
        collapse_details := by
  simp only [generate_mermaid_filtered, render_receivers]
  by_cases hc : (collapse_details && method_name.isNone) = true
  · rw [if_pos hc, if_pos hc]
    rw [externals_collapse_fold]
  · rw [if_neg hc, if_neg hc]
    rw [render_fold_receivers]
    simp [mem_insert_all]

/-- C3 (amended): the rendered call list of a statement consists of exactly
the non-suppressed invocations of its subtree, in document order, where a
call is suppressed exactly when it has a receiver and either its full
invocation text starts with an ignored service name, or its receiver text
equals an ignored service name, or its receiver text equals an ignored
variable name or starts with that name followed by a dot.  Matching is by
starts-with on the raw text, not by equality of the receiver prefix before
the first dot, and it applies to `this.`-calls as well. -/
theorem C3_suppression_characterization (cfg : GenCfg) (node : TSNode)
    (c : List CallInfo) (e : List String) :
    (collect_calls_recursive cfg node (c, e)).1 =
      c ++ (preorder_nodes node).filterMap (head_call cfg)
    ∧ (∀ m : TSNode, head_call cfg m = none ↔
        (m.kind ≠ "method_invocation" ∨ m.childByField "name" = none
          ∨ should_ignore_invocation cfg m = true))
    ∧ (∀ m : TSNode, should_ignore_invocation cfg m = true ↔
        ∃ obj : TSNode, m.childByField "object" = some obj ∧
          ((∃ s ∈ cfg.ignored_services,
              starts_with_str m.text s = true ∨ obj.text = s)
           ∨ (∃ v ∈ cfg.ignored_variables,
              obj.text = v ∨ starts_with_str obj.text (v ++ ".") = true))) := by
  refine ⟨?_, ?_, ?_⟩
  · rw [collect_calls_eq]
  · intro m
    unfold head_call
    by_cases hk : (m.kind == "method_invocation") = true
    · rw [if_pos hk]
      have hk2 : m.kind = "method_invocation" := by simpa using hk
      cases hn : m.childByField "name" with
      | none => simp [hk2]
      | some nn =>
        by_cases hig : should_ignore_invocation cfg m = true
        · simp [hig, hk2]
        · simp [hig, hk2]
    · rw [if_neg hk]
      have hk2 : m.kind ≠ "method_invocation" := by simpa using hk
      simp [hk2]
  · intro m
    unfold should_ignore_invocation
    cases ho : m.childByField "object" with
    | none => simp
    | some obj =>
      simp only [Bool.or_eq_true, List.any_eq_true, Bool.or_eq_true, beq_iff_eq]
      constructor
      · rintro (⟨s, hs, hmatch⟩ | ⟨v, hv, hmatch⟩)
        · exact ⟨obj, rfl, Or.inl ⟨s, hs, by tauto⟩⟩
        · exact ⟨obj, rfl, Or.inr ⟨v, hv, by tauto⟩⟩
      · rintro ⟨obj2, hobj2, hrest⟩
        obtain rfl : obj2 = obj := by
          injection hobj2 with h
          exact h.symm
        rcases hrest with ⟨s, hs, hm⟩ | ⟨v, hv, hm⟩
        · exact Or.inl ⟨s, hs, by tauto⟩
        · exact Or.inr ⟨v, hv, by tauto⟩

/-! ## Output structure of the call/return emission (claim C2) -/

theorem out_push_line (st : GenSt) (l : String) :
    (push_line st l).out = st.out ++ [l] := rfl

theorem out_next_id (st : GenSt) : (next_id st).2.out = st.out := rfl

theorem out_push_edges (st : GenSt) (prevs : List String) (label : Option String)
    (target : String) :
    (push_edges st prevs label target).out =
      st.out ++ prevs.map (fun p => "    " ++ p ++ " " ++ arrow_of label ++ " " ++ target) := by
  unfold push_edges
  induction prevs generalizing st with
  | nil => simp
  | cons p ps ih =>
    rw [List.foldl_cons, ih]
    simp [out_push_line, List.append_assoc]

theorem out_emit_mono (calls : List CallInfo) (prevs : List String)
    (label : Option String) (st : GenSt) :
    ∃ t : List String, (emit_call_nodes calls prevs label st).2.2.out = st.out ++ t := by
  induction calls generalizing prevs label st with
  | nil => exact ⟨[], by simp; rfl⟩
  | cons c rest ih =>
    obtain ⟨name, ext, raw, off⟩ := c
    simp only [emit_call_nodes]
    obtain ⟨t, ht⟩ := ih [(next_id st).1] none
      (push_edges (push_line (push_line (next_id st).2
        ("    " ++ (next_id st).1 ++ "[\"" ++
          replace_char (if ext then "External: " ++ raw else name) '"' '\'' ++ "\"]:::" ++
          (if ext then "external" else "internal")))
        (click_line (next_id st).1 off)) prevs label (next_id st).1)
    rw [ht, out_push_edges]
    simp only [out_push_line, out_next_id, List.append_assoc, List.cons_append,
      List.nil_append]
    exact ⟨_, rfl⟩

theorem mem_out_emit_call_nodes (calls : List CallInfo) (prevs : List String)
    (label : Option String) (st : GenSt) (x : String) (hx : x ∈ st.out) :
    x ∈ (emit_call_nodes calls prevs label st).2.2.out := by
  obtain ⟨t, ht⟩ := out_emit_mono calls prevs label st
  rw [ht]
  exact List.mem_append_left _ hx

theorem emit_call_line_mem (calls : List CallInfo) (prevs : List String)
    (label : Option String) (st : GenSt) :
    ∀ ci ∈ calls, ∃ call_id : String,
      ("    " ++ call_id ++ "[\"" ++
        replace_char (if ci.2.1 then "External: " ++ ci.2.2.1 else ci.1) '"' '\'' ++
        "\"]:::" ++ (if ci.2.1 then "external" else "internal"))
      ∈ (emit_call_nodes calls prevs label st).2.2.out := by
  induction calls generalizing prevs label st with
  | nil => intro ci h; simp at h
  | cons c rest ih =>
    intro ci hci
    rcases List.mem_cons.mp hci with rfl | hmem
    · obtain ⟨name, ext, raw, off⟩ := ci
      simp only [emit_call_nodes]
      refine ⟨(next_id st).1, ?_⟩
      apply mem_out_emit_call_nodes
      rw [out_push_edges]
      apply List.mem_append_left
      rw [out_push_line, out_push_line]
      simp
    · obtain ⟨name, ext, raw, off⟩ := c
      simp only [emit_call_nodes]
      exact ih _ _ _ ci hmem

/-- C2 (amended): rendering a return statement always produces exactly one
return node as the new frontier, labelled with the literal statement text
with double quotes replaced by apostrophes — but every invocation collected
inside the statement (the return expression included) is additionally
rendered as its own call node; when the statement contains no renderable
invocation, the appended output is exactly the return node, its click line,
and one edge per incoming frontier node. -/
theorem C2_return_statement_rendering (cfg : GenCfg) (node : TSNode)
    (prev_ids : List String) (label : Option String) (st : GenSt)
    (hret : node.kind = "return_statement") :
    ∃ ret_id : String,
      (process_expression_with_label cfg node prev_ids label st).1 = [ret_id]
      ∧ ("    " ++ ret_id ++ "[\"" ++ replace_char node.text '"' '\'' ++ "\"]")
          ∈ (process_expression_with_label cfg node prev_ids label st).2.out
      ∧ (∀ ci ∈ (find_calls_in_node cfg node st.externals).1, ∃ call_id : String,
          ("    " ++ call_id ++ "[\"" ++
            replace_char (if ci.2.1 then "External: " ++ ci.2.2.1 else ci.1) '"' '\'' ++
            "\"]:::" ++ (if ci.2.1 then "external" else "internal"))
          ∈ (process_expression_with_label cfg node prev_ids label st).2.out)
      ∧ ((find_calls_in_node cfg node st.externals).1 = [] →
          (process_expression_with_label cfg node prev_ids label st).2.out =
            st.out ++
              ("    " ++ ret_id ++ "[\"" ++ replace_char node.text '"' '\'' ++ "\"]") ::
              click_line ret_id node.startByte ::
              prev_ids.map (fun p => "    " ++ p ++ " " ++ arrow_of label ++ " " ++ ret_id)) := by
  have hretb : (node.kind == "return_statement") = true := by simp [hret]
  unfold process_expression_with_label
  rw [hretb]
  simp only [Bool.not_true, Bool.and_false]
  rw [if_neg (by simp)]
  simp only [if_true]
  refine ⟨_, rfl, ?_, ?_, ?_⟩
  · rw [out_push_edges]
    apply List.mem_append_left
    rw [out_push_line, out_push_line]
    simp
  · intro ci hci
    obtain ⟨call_id, hcl⟩ := emit_call_line_mem (find_calls_in_node cfg node st.externals).1
      prev_ids label { st with externals := (find_calls_in_node cfg node st.externals).2 }
      ci hci
    refine ⟨call_id, ?_⟩
    rw [out_push_edges]
    apply List.mem_append_left
    rw [out_push_line, out_push_line]
    exact List.mem_append_left _ (List.mem_append_left _ hcl)
  · intro hnone
    rw [hnone]
    simp only [emit_call_nodes]
    rw [out_push_edges, out_push_line, out_push_line]
    simp [out_next_id, List.append_assoc]

/-- C9: an invocation with no receiver object whose name is not a registry
key is collected as an external call — the emission loop then renders it
with the label `External: <raw_text>` (quotes normalized) and external
style — yet it contributes nothing to the external-service set; only
invocations whose receiver is present and different from `this` extend
that set. -/
theorem C9_receiverless_unknown_external (cfg : GenCfg) (node : TSNode)
    (nn : TSNode) (c : List CallInfo) (e : List String)
    (hk : node.kind = "method_invocation")
    (hname : node.childByField "name" = some nn)
    (hobj : node.childByField "object" = none)
    (hreg : mapContains cfg.graph.nodes nn.text = false) :
    invocation_step cfg node (c, e) =
      (c ++ [(nn.text, true, node.text, node.startByte)], e)
    ∧ (∀ (prevs : List String) (label : Option String) (st : GenSt),
        ("    " ++ (next_id st).1 ++ "[\"" ++
          replace_char ("External: " ++ node.text) '"' '\'' ++ "\"]:::" ++ "external")
        ∈ (emit_call_nodes [(nn.text, true, node.text, node.startByte)]
            prevs label st).2.2.out)
    ∧ (∀ (m : TSNode) (c' : List CallInfo) (e' : List String),
        (m.childByField "object" = none
          ∨ (∃ o : TSNode, m.childByField "object" = some o ∧ o.text = "this")) →
        (invocation_step cfg m (c', e')).2 = e') := by
  have hig : should_ignore_invocation cfg node = false := by
    unfold should_ignore_invocation
    rw [hobj]
  refine ⟨?_, ?_, ?_⟩
  · rw [invocation_step_eq]
    have hcall : head_call cfg node = some (nn.text, true, node.text, node.startByte) := by
      unfold head_call
      rw [if_pos (by simp [hk]), hname]
      simp only [hig]
      rw [if_neg (by simp)]
      rw [hobj, hreg]
      rfl
    have hrecv : head_receiver cfg node = none := by
      unfold head_receiver
      rw [if_pos (by simp [hk]), hname]
      simp only [hig]
      rw [if_neg (by simp)]
      rw [hobj]
    rw [hcall, hrecv]
    rfl
  · intro prevs label st
    simp only [emit_call_nodes]
    rw [out_push_edges]
    apply List.mem_append_left
    rw [out_push_line, out_push_line]
    simp only [List.mem_append, List.mem_singleton]
    exact Or.inl (Or.inr rfl)
  · intro m c' e' hcase
    rw [invocation_step_eq]
    have hrecv : head_receiver cfg m = none := by
      unfold head_receiver
      by_cases hkm : (m.kind == "method_invocation") = true
      · rw [if_pos hkm]
        cases hnm : m.childByField "name" with
        | none => rfl
        | some nm =>
          simp only []
          by_cases higm : should_ignore_invocation cfg m = true
          · rw [if_pos higm]
          · rw [if_neg higm]
            rcases hcase with hnone | ⟨o, ho, hthis⟩
            · rw [hnone]
            · rw [ho]
              simp [hthis]
      · rw [if_neg hkm]
    rw [hrecv]

/-- C10: the unfiltered entry point `generate_mermaid` hardcodes
`System.out` and `System.err` as ignored services even though its caller
passes no ignore configuration; an expression statement all of whose
invocations have such receivers (or raw text starting with them) is
suppressed entirely — no node, no click line, no edge, no identifier, no
external-service entry, and an unchanged frontier. -/
theorem C10_system_out_suppressed (graph : CallGraph) (stmt : TSNode)
    (prev_ids : List String) (label : Option String) (st : GenSt)
    (hkind : stmt.kind = "expression_statement")
    (hsys : ∀ m ∈ preorder_nodes stmt, m.kind = "method_invocation" →
      ∃ obj : TSNode, m.childByField "object" = some obj ∧
        (obj.text = "System.out" ∨ obj.text = "System.err"
          ∨ starts_with_str m.text "System.out" = true
          ∨ starts_with_str m.text "System.err" = true)) :
    process_expression_with_label (generate_mermaid_cfg graph) stmt prev_ids label st =
      (prev_ids, st) := by
  have hnone : ∀ m ∈ preorder_nodes stmt,
      head_call (generate_mermaid_cfg graph) m = none
      ∧ head_receiver (generate_mermaid_cfg graph) m = none := by
    intro m hm
    by_cases hkm : (m.kind == "method_invocation") = true
    · obtain ⟨obj, hobj, hdisj⟩ := hsys m hm (by simpa using hkm)
      have hig : should_ignore_invocation (generate_mermaid_cfg graph) m = true := by
        unfold should_ignore_invocation
        rw [hobj]
        simp only [generate_mermaid_cfg]
        simp only [List.any_cons, List.any_nil, Bool.or_false, Bool.or_eq_true,
          beq_iff_eq]
        rcases hdisj with h | h | h | h
        · tauto
        · tauto
        · tauto
        · tauto
      constructor
      · unfold head_call
        rw [if_pos hkm]
        cases hnm : m.childByField "name" with
        | none => rfl
        | some nm =>
          simp only []
          rw [if_pos hig]
      · unfold head_receiver
        rw [if_pos hkm]
        cases hnm : m.childByField "name" with
        | none => rfl
        | some nm =>
          simp only []
          rw [if_pos hig]
    · exact ⟨by unfold head_call; rw [if_neg hkm],
        by unfold head_receiver; rw [if_neg hkm]⟩
  have hfilter : (preorder_nodes stmt).filterMap
      (head_call (generate_mermaid_cfg graph)) = [] := by
    rw [List.filterMap_eq_nil_iff]
    intro m hm
    exact (hnone m hm).1
  have hfilter2 : (preorder_nodes stmt).filterMap
      (head_receiver (generate_mermaid_cfg graph)) = [] := by
    rw [List.filterMap_eq_nil_iff]
    intro m hm
    exact (hnone m hm).2
  unfold process_expression_with_label find_calls_in_node
  rw [collect_calls_eq]
  rw [hfilter, hfilter2]
  simp only [List.nil_append, List.append_nil, List.isEmpty_nil, insert_all]
  rw [if_pos (by simp [hkind])]

/-- C5 (amended): if a method name is given and is present in the registry,
exactly that method is selected; if a name is given but absent, the
selection is empty (not the public surface); with no name the selection is
exactly the methods whose modifier list contains public or protected, in
ascending name order. -/
theorem C5_target_selection (g : CallGraph) (n : String) :
    (mapContains g.nodes n = true → select_targets g (some n) = [n])
    ∧ (mapContains g.nodes n = false → select_targets g (some n) = [])
    ∧ StrSorted (select_targets g none)
    ∧ (∀ m, m ∈ select_targets g none ↔
        ∃ info : MethodNode, (m, info) ∈ g.nodes ∧
          ("public" ∈ info.modifiers ∨ "protected" ∈ info.modifiers)) :=
  ⟨select_targets_some_present g n, select_targets_some_absent g n,
   select_targets_none_sorted g, select_targets_none_mem g⟩

/-- C7: when two or more collected declarations share a simple name, the
registry produced by parse keeps exactly one entry under that name, and its
value is the extraction (name, byte range, modifiers, return type) of the
declaration collected last. -/
theorem C7_last_declaration_wins (root : TSNode) (n : String)
    (hdup : 2 ≤ (collect_method_declarations root ([], [])).2.countP
      (fun p => p.1 == n)) :
    (JavaParser.parse root).nodes.countP (fun p => p.1 == n) = 1
    ∧ mapLookup (JavaParser.parse root).nodes n =
        last_decl_entry (collect_method_declarations root ([], [])).2 n := by
  have hnodes : (JavaParser.parse root).nodes =
      (collect_method_declarations root ([], [])).1 := rfl
  have hinv := collect_inv_root root
  have hexists : ∃ p ∈ (collect_method_declarations root ([], [])).2,
      (fun p => p.1 == n) p = true := by
    rw [← List.countP_pos_iff]
    omega
  obtain ⟨p, hp, hpk⟩ := hexists
  have hcontains : mapContains (collect_method_declarations root ([], [])).1 n = true := by
    have := hinv.2.2 p hp
    simp only [beq_iff_eq] at hpk
    rw [hpk] at this
    exact this
  constructor
  · rw [hnodes]
    exact countP_eq_one_of_keysNodup _ n hinv.2.1 hcontains
  · rw [hnodes]
    exact hinv.1 n

/-- C8: every key of the calls map of a parsed call graph is also a key of
its nodes map — every caller with recorded calls is a declared method. -/
theorem C8_calls_keys_subset_nodes (root : TSNode) (k : String)
    (h : mapContains (JavaParser.parse root).calls k = true) :
    mapContains (JavaParser.parse root).nodes k = true := by
  have hcalls : (JavaParser.parse root).calls =
      (collect_method_declarations root ([], [])).2.foldl
        (fun a p => mapInsert a p.1 (find_calls p.2
          ((collect_method_declarations root ([], [])).1.map (fun q => q.1)))) [] := rfl
  rw [hcalls] at h
  rcases mapContains_foldl_mapInsert _ _ _ _ h with h0 | ⟨p, hp, rfl⟩
  · simp [mapContains] at h0
  · exact (collect_inv_root root).2.2 p hp

/-! ## Length of the decimal numeral of a node counter (groundwork for C6) -/

theorem toDigitsCore_len_shift : ∀ (fuel n : Nat) (ds : List Char),
    (Nat.toDigitsCore 10 fuel n ds).length =
      (Nat.toDigitsCore 10 fuel n []).length + ds.length := by
  intro fuel
  induction fuel with
  | zero => intro n ds; simp [Nat.toDigitsCore]
  | succ f ih =>
    intro n ds
    simp only [Nat.toDigitsCore]
    by_cases h : n / 10 = 0
    · rw [if_pos h, if_pos h]; simp; omega
    · rw [if_neg h, if_neg h]
      rw [ih (n / 10) [Nat.digitChar (n % 10)], ih (n / 10) (Nat.digitChar (n % 10) :: ds)]
      simp
      omega

theorem toDigitsCore_fuel_irrel : ∀ (f g n : Nat) (ds : List Char),
    n < f → n < g → Nat.toDigitsCore 10 f n ds = Nat.toDigitsCore 10 g n ds := by
  intro f
  induction f with
  | zero => intro g n ds hf; omega
  | succ f ih =>
    intro g n ds hf hg
    cases g with
    | zero => omega
    | succ g =>
      simp only [Nat.toDigitsCore]
      by_cases h : n / 10 = 0
      · rw [if_pos h, if_pos h]
      · rw [if_neg h, if_neg h]
        exact ih g (n / 10) _ (by omega) (by omega)

theorem toDigits_len_step (n : Nat) :
    (Nat.toDigits 10 n).length =
      if n / 10 = 0 then 1 else (Nat.toDigits 10 (n / 10)).length + 1 := by
  simp only [Nat.toDigits, Nat.toDigitsCore]
  by_cases h : n / 10 = 0
  · rw [if_pos h, if_pos h]; rfl
  · rw [if_neg h, if_neg h]
    rw [toDigitsCore_len_shift]
    rw [toDigitsCore_fuel_irrel n (n / 10 + 1) (n / 10) [] (by omega) (by omega)]
    rfl

theorem toDigits_len_mono : ∀ n m : Nat, m ≤ n →
    (Nat.toDigits 10 m).length ≤ (Nat.toDigits 10 n).length := by
  intro n
  induction n using Nat.strong_induction_on with
  | _ n ih =>
    intro m hmn
    rw [toDigits_len_step n, toDigits_len_step m]
    by_cases hn : n / 10 = 0
    · rw [if_pos hn, if_pos (by omega)]
    · rw [if_neg hn]
      by_cases hm : m / 10 = 0
      · rw [if_pos hm]; omega
      · rw [if_neg hm]
        have := ih (n / 10) (by omega) (m / 10) (by omega)
        omega

theorem repr_len_mono (m n : Nat) (h : m ≤ n) :
    (Nat.repr m).length ≤ (Nat.repr n).length := by
  have hs : ∀ k : Nat, (Nat.repr k).length = (Nat.toDigits 10 k).length := by
    intro k; rfl
  rw [hs, hs]
  exact toDigits_len_mono n m h

/-! ## Line-length accounting -/

theorem lines_len_append (a b : List String) :
    lines_len (a ++ b) = lines_len a + lines_len b := by
  induction a with
  | nil => simp [lines_len]
  | cons l ls ih => simp [lines_len, ih]; omega

theorem render_lines_length (ls : List String) :
    (render_lines ls).length = lines_len ls := by
  induction ls with
  | nil => rfl
  | cons l rest ih =>
    show (l ++ "\n" ++ render_lines rest).length = l.length + 1 + lines_len rest
    rw [String.length_append, String.length_append, ih]
    rfl

/-- Length of a collapsed/start method marker line is monotone in the
counter value stamped into its node id. -/
theorem pub_line_len_mono (a b : Nat) (m : String) (h : a ≤ b) :
    ("    " ++ ("N" ++ Nat.repr a) ++ "([\"" ++ m ++ "\"]):::public").length
      ≤ ("    " ++ ("N" ++ Nat.repr b) ++ "([\"" ++ m ++ "\"]):::public").length := by
  simp only [String.length_append]
  have := repr_len_mono a b h
  omega

/-! ## Monotone state growth of the renderer -/

theorem stMono_refl (st : GenSt) : StMono st st :=
  ⟨le_refl _, [], by simp⟩

theorem stMono_trans {a b c : GenSt} (h1 : StMono a b) (h2 : StMono b c) :
    StMono a c := by
  obtain ⟨hc1, t1, ht1⟩ := h1
  obtain ⟨hc2, t2, ht2⟩ := h2
  exact ⟨le_trans hc1 hc2, t1 ++ t2, by rw [ht2, ht1, List.append_assoc]⟩

theorem stMono_push_line (st : GenSt) (l : String) : StMono st (push_line st l) :=
  ⟨le_refl _, [l], rfl⟩

theorem stMono_next_id (st : GenSt) : StMono st (next_id st).2 :=
  ⟨Nat.le_succ _, [], by simp [next_id]⟩

theorem stMono_set_externals (st : GenSt) (e : List String) :
    StMono st { st with externals := e } :=
  ⟨le_refl _, [], by simp⟩

theorem stMono_push_edges (st : GenSt) (prevs : List String) (label : Option String)
    (target : String) : StMono st (push_edges st prevs label target) := by
  unfold push_edges
  induction prevs generalizing st with
  | nil => exact stMono_refl st
  | cons p ps ih =>
    rw [List.foldl_cons]
    exact stMono_trans (stMono_push_line st _) (ih _)

theorem stMono_foldl_push (l : List String) (f : String → String)
    (c : String → Bool) (st : GenSt) :
    StMono st (l.foldl (fun s p => if c p then s else push_line s (f p)) st) := by
  induction l generalizing st with
  | nil => exact stMono_refl st
  | cons p ps ih =>
    rw [List.foldl_cons]
    by_cases h : c p = true
    · rw [if_pos h]; exact ih st
    · rw [if_neg h]; exact stMono_trans (stMono_push_line st _) (ih _)

theorem stMono_foldl_push_all (l : List String) (f : String → String) (st : GenSt) :
    StMono st (l.foldl (fun s p => push_line s (f p)) st) := by
  induction l generalizing st with
  | nil => exact stMono_refl st
  | cons p ps ih =>
    rw [List.foldl_cons]
    exact stMono_trans (stMono_push_line st _) (ih _)

theorem stMono_emit (calls : List CallInfo) (prevs : List String)
    (label : Option String) (st : GenSt) :
    StMono st (emit_call_nodes calls prevs label st).2.2 := by
  induction calls generalizing prevs label st with
  | nil => exact stMono_refl st
  | cons c rest ih =>
    obtain ⟨name, ext, raw, off⟩ := c
    simp only [emit_call_nodes]
    exact stMono_trans (stMono_next_id st)
      (stMono_trans (stMono_push_line _ _)
        (stMono_trans (stMono_push_line _ _)
          (stMono_trans (stMono_push_edges _ _ _ _) (ih _ _ _))))

theorem stMono_process_expression (cfg : GenCfg) (node : TSNode)
    (prev_ids : List String) (label : Option String) (st : GenSt) :
    StMono st (process_expression_with_label cfg node prev_ids label st).2 := by
  simp only [process_expression_with_label]
  split
  · exact stMono_set_externals st _
  · split
    · exact stMono_trans (stMono_set_externals st _)
        (stMono_trans (stMono_emit _ _ _ _)
          (stMono_trans (stMono_next_id _)
            (stMono_trans (stMono_push_line _ _)
              (stMono_trans (stMono_push_line _ _) (stMono_push_edges _ _ _ _)))))
    · exact stMono_trans (stMono_set_externals st _) (stMono_emit _ _ _ _)

mutual
theorem stMono_dispatch : ∀ (fuel : Nat) (cfg : GenCfg) (node : TSNode)
    (prevs : List String) (label : Option String) (st : GenSt),
    StMono st (dispatch_node fuel cfg node prevs label st).2 := by
  intro fuel cfg node prevs label st
  match fuel with
  | 0 => exact stMono_refl st
  | fuel+1 =>
    simp only [dispatch_node]
    by_cases h1 : (node.kind == "expression_statement"
        || node.kind == "local_variable_declaration"
        || node.kind == "return_statement") = true
    · rw [if_pos h1]
      exact stMono_process_expression cfg node prevs label st
    · rw [if_neg h1]
      by_cases h2 : (node.kind == "if_statement") = true
      · rw [if_pos h2]
        exact stMono_process_if fuel cfg node prevs label st
      · rw [if_neg h2]
        by_cases h3 : (node.kind == "for_statement" || node.kind == "while_statement"
            || node.kind == "do_statement" || node.kind == "enhanced_for_statement") = true
        · rw [if_pos h3]
          exact stMono_process_loop fuel cfg node prevs label st
        · rw [if_neg h3]
          by_cases h4 : (node.kind == "switch_expression"
              || node.kind == "switch_statement") = true
          · rw [if_pos h4]
            exact stMono_process_switch fuel cfg node prevs label st
          · rw [if_neg h4]
            exact stMono_process_generic fuel cfg node prevs label st

theorem stMono_process_if : ∀ (fuel : Nat) (cfg : GenCfg) (node : TSNode)
    (prevs : List String) (label : Option String) (st : GenSt),
    StMono st (process_if_with_label fuel cfg node prevs label st).2 := by
  intro fuel cfg node prevs label st
  match fuel with
  | 0 => exact stMono_refl st
  | fuel+1 =>
    simp only [process_if_with_label]
    cases hcond : node.childByField "condition" with
    | none => exact stMono_refl st
    | some condition_node =>
      cases hcons : node.childByField "consequence" with
      | none =>
        exact stMono_trans (stMono_set_externals st _)
          (stMono_trans (stMono_emit _ _ _ _)
            (stMono_trans (stMono_next_id _)
              (stMono_trans (stMono_push_line _ _)
                (stMono_trans (stMono_push_line _ _) (stMono_push_edges _ _ _ _)))))
      | some consequence =>
        cases halt : node.childByField "alternative" with
        | some alternative =>
          exact stMono_trans (stMono_set_externals st _)
            (stMono_trans (stMono_emit _ _ _ _)
              (stMono_trans (stMono_next_id _)
                (stMono_trans (stMono_push_line _ _)
                  (stMono_trans (stMono_push_line _ _)
                    (stMono_trans (stMono_push_edges _ _ _ _)
                      (stMono_trans (stMono_traverse fuel cfg consequence _ _ _)
                        (stMono_traverse fuel cfg alternative _ _ _)))))))
        | none =>
          exact stMono_trans (stMono_set_externals st _)
            (stMono_trans (stMono_emit _ _ _ _)
              (stMono_trans (stMono_next_id _)
                (stMono_trans (stMono_push_line _ _)
                  (stMono_trans (stMono_push_line _ _)
                    (stMono_trans (stMono_push_edges _ _ _ _)
                      (stMono_traverse fuel cfg consequence _ _ _))))))

theorem stMono_process_loop : ∀ (fuel : Nat) (cfg : GenCfg) (node : TSNode)
    (prevs : List String) (label : Option String) (st : GenSt),
    StMono st (process_loop_with_label fuel cfg node prevs label st).2 := by
  intro fuel cfg node prevs label st
  match fuel with
  | 0 => exact stMono_refl st
  | fuel+1 =>
    simp only [process_loop_with_label]
    cases hbody : node.childByField "body" with
    | none =>
      exact stMono_trans (stMono_next_id st)
        (stMono_trans (stMono_push_line _ _)
          (stMono_trans (stMono_push_line _ _)
            (stMono_trans (stMono_push_edges _ _ _ _) (stMono_foldl_push _ _ _ _))))
    | some body_node =>
      exact stMono_trans (stMono_next_id st)
        (stMono_trans (stMono_push_line _ _)
          (stMono_trans (stMono_push_line _ _)
            (stMono_trans (stMono_push_edges _ _ _ _)
              (stMono_trans (stMono_traverse fuel cfg body_node _ _ _)
                (stMono_foldl_push _ _ _ _)))))

theorem stMono_process_switch : ∀ (fuel : Nat) (cfg : GenCfg) (node : TSNode)
    (prevs : List String) (label : Option String) (st : GenSt),
    StMono st (process_switch_with_label fuel cfg node prevs label st).2 := by
  intro fuel cfg node prevs label st
  match fuel with
  | 0 => exact stMono_refl st
  | fuel+1 =>
    simp only [process_switch_with_label]
    cases hbody : node.childByField "body" with
    | none =>
      rw [if_pos (List.isEmpty_nil)]
      exact stMono_trans (stMono_next_id st)
        (stMono_trans (stMono_push_line _ _)
          (stMono_trans (stMono_push_line _ _) (stMono_push_edges _ _ _ _)))
    | some body_node =>
      split
      · exact stMono_trans (stMono_next_id st)
          (stMono_trans (stMono_push_line _ _)
            (stMono_trans (stMono_push_line _ _)
              (stMono_trans (stMono_push_edges _ _ _ _)
                (stMono_switch_cases fuel cfg _ _ _ _))))
      · exact stMono_trans (stMono_next_id st)
          (stMono_trans (stMono_push_line _ _)
            (stMono_trans (stMono_push_line _ _)
              (stMono_trans (stMono_push_edges _ _ _ _)
                (stMono_switch_cases fuel cfg _ _ _ _))))

theorem stMono_switch_cases : ∀ (fuel : Nat) (cfg : GenCfg) (switch_id : String)
    (l : TSList) (exits : List String) (st : GenSt),
    StMono st (switch_cases fuel cfg switch_id l exits st).2 := by
  intro fuel cfg switch_id l exits st
  match fuel, l with
  | 0, _ => exact stMono_refl st
  | fuel+1, .nil => exact stMono_refl st
  | fuel+1, .cons f child rest =>
    simp only [switch_cases]
    by_cases hn : child.isNamed = true
    · rw [if_pos hn]
      exact stMono_trans (stMono_traverse fuel cfg child _ _ _)
        (stMono_switch_cases fuel cfg switch_id rest _ _)
    · rw [if_neg hn]
      exact stMono_switch_cases fuel cfg switch_id rest exits st

theorem stMono_process_generic : ∀ (fuel : Nat) (cfg : GenCfg) (node : TSNode)
    (prevs : List String) (label : Option String) (st : GenSt),
    StMono st (process_generic_recursive_with_label fuel cfg node prevs label st).2 := by
  intro fuel cfg node prevs label st
  match fuel with
  | 0 => exact stMono_refl st
  | fuel+1 =>
    simp only [process_generic_recursive_with_label]
    exact stMono_children fuel cfg node.children prevs label st

theorem stMono_children : ∀ (fuel : Nat) (cfg : GenCfg) (l : TSList)
    (prevs : List String) (label : Option String) (st : GenSt),
    StMono st (dispatch_children fuel cfg l prevs label st).2 := by
  intro fuel cfg l prevs label st
  match fuel, l with
  | 0, _ => exact stMono_refl st
  | fuel+1, .nil => exact stMono_refl st
  | fuel+1, .cons f child rest =>
    simp only [dispatch_children]
    by_cases hn : child.isNamed = true
    · rw [if_pos hn]
      by_cases hr : ((dispatch_node fuel cfg child prevs label st).1 == prevs) = true
      · rw [if_pos hr]
        exact stMono_trans (stMono_dispatch fuel cfg child _ _ _)
          (stMono_children fuel cfg rest _ _ _)
      · rw [if_neg hr]
        exact stMono_trans (stMono_dispatch fuel cfg child _ _ _)
          (stMono_children fuel cfg rest _ _ _)
    · rw [if_neg hn]
      exact stMono_children fuel cfg rest prevs label st

theorem stMono_traverse : ∀ (fuel : Nat) (cfg : GenCfg) (node : TSNode)
    (prevs : List String) (label : Option String) (st : GenSt),
    StMono st (traverse_node_with_label fuel cfg node prevs label st).2 := by
  intro fuel cfg node prevs label st
  match fuel with
  | 0 => exact stMono_refl st
  | fuel+1 =>
    simp only [traverse_node_with_label]
    by_cases hb : (node.kind == "block") = true
    · rw [if_pos hb]
      exact stMono_children fuel cfg node.children prevs label st
    · rw [if_neg hb]
      exact stMono_dispatch fuel cfg node prevs label st
end

theorem stMono_traverse_block (fuel : Nat) (cfg : GenCfg) (b : TSNode)
    (p : List String) (st : GenSt) : StMono st (traverse_block fuel cfg b p st).2 :=
  stMono_children fuel cfg b.children p none st

/-- Counter is untouched by a run of plain line pushes. -/
theorem counter_foldl_push (l : List String) (f : String → String) (st : GenSt) :
    (l.foldl (fun s p => push_line s (f p)) st).counter = st.counter := by
  induction l generalizing st with
  | nil => rfl
  | cons p ps ih => rw [List.foldl_cons]; exact ih _

/-- Output of a run of plain line pushes. -/
theorem out_foldl_push (l : List String) (f : String → String) (st : GenSt) :
    (l.foldl (fun s p => push_line s (f p)) st).out = st.out ++ l.map f := by
  induction l generalizing st with
  | nil => simp
  | cons p ps ih =>
    rw [List.foldl_cons, ih]
    simp [out_push_line, List.append_assoc]

/-- Rendering one method flow bumps the counter and appends at least the
subgraph header, the direction line and the public start marker stamped
with the next node id. -/
theorem method_flow_growth (fuel : Nat) (cfg : GenCfg) (mn : TSNode) (m : String)
    (st : GenSt) :
    st.counter + 1 ≤ (generate_method_flow fuel cfg mn m st).counter
    ∧ ∃ t : List String,
        (generate_method_flow fuel cfg mn m st).out =
          st.out ++ ("  subgraph " ++ m) :: "    direction TB" ::
            ("    " ++ ("N" ++ Nat.repr (st.counter + 1)) ++ "([\"" ++ m ++
              "\"]):::public") :: t := by
  simp only [generate_method_flow]
  cases hbody : mn.childByField "body" with
  | none =>
    refine ⟨Nat.le.refl, ["  end"], ?_⟩
    simp [push_line, next_id, List.append_assoc]
  | some body =>
    simp only []
    have hmono := stMono_traverse_block fuel cfg body
      [(next_id (push_line (push_line st ("  subgraph " ++ m)) "    direction TB")).1]
      (push_line (next_id (push_line (push_line st ("  subgraph " ++ m))
          "    direction TB")).2
        ("    " ++ (next_id (push_line (push_line st ("  subgraph " ++ m))
            "    direction TB")).1 ++ "([\"" ++ m ++ "\"]):::public"))
    generalize hrb : traverse_block fuel cfg body
      [(next_id (push_line (push_line st ("  subgraph " ++ m)) "    direction TB")).1]
      (push_line (next_id (push_line (push_line st ("  subgraph " ++ m))
          "    direction TB")).2
        ("    " ++ (next_id (push_line (push_line st ("  subgraph " ++ m))
            "    direction TB")).1 ++ "([\"" ++ m ++ "\"]):::public")) = rb
      at hmono ⊢
    obtain ⟨hc1, t1, ht1⟩ := hmono
    constructor
    · have hfinal : (push_line (push_line (rb.1.foldl
          (fun s p => push_line s ("    " ++ p ++ " --> " ++ (next_id rb.2).1))
          (next_id rb.2).2)
          ("    " ++ (next_id rb.2).1 ++ "([\"End of " ++ m ++ "\"]):::endNode"))
          "  end").counter = rb.2.counter + 1 := by
        show (rb.1.foldl (fun s p => push_line s ("    " ++ p ++ " --> " ++ (next_id rb.2).1))
          (next_id rb.2).2).counter = rb.2.counter + 1
        rw [counter_foldl_push]
        rfl
      rw [hfinal]
      have hst4 : (push_line (next_id (push_line (push_line st ("  subgraph " ++ m))
          "    direction TB")).2
        ("    " ++ (next_id (push_line (push_line st ("  subgraph " ++ m))
            "    direction TB")).1 ++ "([\"" ++ m ++ "\"]):::public")).counter
          = st.counter + 1 := rfl
      rw [hst4] at hc1
      omega
    · rw [out_push_line, out_push_line, out_foldl_push, out_next_id, ht1]
      simp only [push_line, next_id, List.append_assoc, List.cons_append,
        List.singleton_append, List.nil_append]
      exact ⟨_, rfl⟩

/-- Step-by-step comparison of the two no-target render loops: the
collapsed overview loop and the full expansion loop, run over the same
target list from states whose counter and output length already compare,
keep comparing — and every target adds strictly more expanded output than
collapsed output. -/
theorem collapse_fold_cmp (graph : CallGraph) (root : TSNode) (iv isv : List String) :
    ∀ (ms : List String) (k : Nat) (sc se : GenSt),
      (∀ m ∈ ms, (locate_target graph root m).isSome = true) →
      sc.counter ≤ se.counter →
      lines_len sc.out + k ≤ lines_len se.out →
      (ms.foldl (fun s m => push_line (next_id s).2
          ("    " ++ (next_id s).1 ++ "([\"" ++ m ++ "\"]):::public")) sc).counter
        ≤ (ms.foldl (fun s m =>
            match locate_target graph root m with
            | some method_node => generate_method_flow (tree_fuel root)
                { graph := graph, ignored_variables := iv, ignored_services := isv,
                  collapse_details := false } method_node m s
            | none => s) se).counter
      ∧ lines_len (ms.foldl (fun s m => push_line (next_id s).2
          ("    " ++ (next_id s).1 ++ "([\"" ++ m ++ "\"]):::public")) sc).out + k + ms.length
        ≤ lines_len (ms.foldl (fun s m =>
            match locate_target graph root m with
            | some method_node => generate_method_flow (tree_fuel root)
                { graph := graph, ignored_variables := iv, ignored_services := isv,
                  collapse_details := false } method_node m s
            | none => s) se).out := by
  intro ms
  induction ms with
  | nil =>
    intro k sc se hloc hc hl
    exact ⟨hc, by simpa using hl⟩
  | cons m rest ih =>
    intro k sc se hloc hc hl
    simp only [List.foldl_cons, List.length_cons]
    obtain ⟨mn, hmn⟩ := Option.isSome_iff_exists.mp (hloc m (List.mem_cons_self m rest))
    simp only [hmn]
    obtain ⟨hfc, t, ht⟩ := method_flow_growth (tree_fuel root)
      { graph := graph, ignored_variables := iv, ignored_services := isv,
        collapse_details := false } mn m se
    have hstep_l : lines_len (push_line (next_id sc).2
        ("    " ++ (next_id sc).1 ++ "([\"" ++ m ++ "\"]):::public")).out + (k + 1)
        ≤ lines_len (generate_method_flow (tree_fuel root)
            { graph := graph, ignored_variables := iv, ignored_services := isv,
              collapse_details := false } mn m se).out := by
      rw [out_push_line, out_next_id, ht, lines_len_append, lines_len_append]
      have hid : (next_id sc).1 = "N" ++ Nat.repr (sc.counter + 1) := rfl
      rw [hid]
      simp only [lines_len]
      have hmono := pub_line_len_mono (sc.counter + 1) (se.counter + 1) m (by omega)
      omega
    have hrec := ih (k + 1) (push_line (next_id sc).2
        ("    " ++ (next_id sc).1 ++ "([\"" ++ m ++ "\"]):::public"))
      (generate_method_flow (tree_fuel root)
        { graph := graph, ignored_variables := iv, ignored_services := isv,
          collapse_details := false } mn m se)
      (fun m2 hm2 => hloc m2 (List.mem_cons_of_mem m hm2))
      (by
        have hc2 : (push_line (next_id sc).2
            ("    " ++ (next_id sc).1 ++ "([\"" ++ m ++ "\"]):::public")).counter
            = sc.counter + 1 := rfl
        rw [hc2]
        omega)
      hstep_l
    obtain ⟨h1, h2⟩ := hrec
    exact ⟨h1, by omega⟩

/-- C6 (amended): when the public/protected surface is nonempty and every
selected method can be located again in the source tree, the collapsed
no-target render is strictly shorter than the expanded no-target render of
the same call graph and source; without those provisos the two renders of
a class with no public surface coincide. -/
theorem C6_collapse_shortens (graph : CallGraph) (root : TSNode) (iv isv : List String)
    (hne : select_targets graph none ≠ [])
    (hloc : ∀ m ∈ select_targets graph none, (locate_target graph root m).isSome = true) :
    (generate_mermaid_filtered graph root none iv isv true).mermaid.length
      < (generate_mermaid_filtered graph root none iv isv false).mermaid.length := by
  simp only [generate_mermaid_filtered, Option.isNone_none, Bool.and_true, Bool.true_and,
    Bool.and_false, Bool.false_and]
  simp only [if_true, Bool.false_eq_true, if_false]
  rw [render_lines_length, render_lines_length, lines_len_append, lines_len_append]
  have hcmp := collapse_fold_cmp graph root iv isv (select_targets graph none) 0
    ⟨0, ["flowchart TD"], []⟩ ⟨0, ["flowchart TD"], []⟩ hloc (le_refl 0) (by omega)
  obtain ⟨h1, h2⟩ := hcmp
  have hlen : 0 < (select_targets graph none).length := List.length_pos.mpr hne
  omega

/-! ## Concrete counterexamples and witnesses -/

set_option maxHeartbeats 1000000 in
set_option maxRecDepth 8192 in
/-- On snippet A, ignoring `svc` removes `svc` from the returned
external-service list even though calls on it were walked: the aggregation
is not independent of the ignore filters. -/
theorem C1_counterexample :
    "svc" ∉ (generate_mermaid_filtered graphA rootA (some "run") [] ["svc"]
        false).external_services
    ∧ "svc" ∈ (generate_mermaid_filtered graphA rootA (some "run") [] []
        false).external_services := by decide

set_option maxHeartbeats 1000000 in
set_option maxRecDepth 8192 in
/-- Rendering `go` of snippet B emits a separate internal call node for the
invocation `check()` inside `return check();`, alongside the return node. -/
theorem C2_counterexample :
    has_sub (generate_mermaid_filtered graphB rootB (some "go") [] [] false).mermaid
      "[\"check\"]:::internal" = true
    ∧ has_sub (generate_mermaid_filtered graphB rootB (some "go") [] [] false).mermaid
      "[\"return check();\"]" = true := by decide

set_option maxHeartbeats 1000000 in
set_option maxRecDepth 8192 in
/-- On snippet R, ignoring `repo` suppresses the call on `repository` —
whose receiver is not equal to `repo` — because the raw invocation text
merely starts with the ignored name. -/
theorem C3_counterexample :
    invR.childByField "object" = some (nnode "identifier" 29 39 "repository" [])
    ∧ has_sub (generate_mermaid_filtered graphR rootR (some "go") [] ["repo"]
        false).mermaid "repository" = false
    ∧ has_sub (generate_mermaid_filtered graphR rootR (some "go") [] []
        false).mermaid "repository" = true := by decide

set_option maxHeartbeats 1000000 in
set_option maxRecDepth 8192 in
/-- On snippet A, targeting the absent name `zzz` selects nothing at all
rather than falling back to the public surface `["run"]`. -/
theorem C5_counterexample :
    mapContains graphA.nodes "zzz" = false
    ∧ select_targets graphA (some "zzz") = []
    ∧ select_targets graphA none = ["run"] := by decide

set_option maxHeartbeats 1000000 in
set_option maxRecDepth 8192 in
/-- On snippet P, whose only method is private, the collapsed and expanded
no-target renders are identical, not strictly ordered by length. -/
theorem C6_counterexample :
    (generate_mermaid_filtered graphP rootP none [] [] true).mermaid =
      (generate_mermaid_filtered graphP rootP none [] [] false).mermaid := by decide

set_option maxHeartbeats 1000000 in
set_option maxRecDepth 8192 in
theorem C2_return_statement_rendering_witness :
    ∃ ret_id : String,
      (process_expression_with_label (generate_mermaid_cfg graphB) retB2 ["N1"] none
        ⟨1, [], []⟩).1 = [ret_id]
      ∧ ("    " ++ ret_id ++ "[\"" ++ replace_char retB2.text '"' '\'' ++ "\"]")
          ∈ (process_expression_with_label (generate_mermaid_cfg graphB) retB2 ["N1"] none
              ⟨1, [], []⟩).2.out := by
  obtain ⟨r, h1, h2, h3, h4⟩ := C2_return_statement_rendering (generate_mermaid_cfg graphB)
    retB2 ["N1"] none ⟨1, [], []⟩ rfl
  exact ⟨r, h1, h2⟩

set_option maxHeartbeats 1000000 in
set_option maxRecDepth 8192 in
theorem C5_target_selection_witness :
    select_targets graphA (some "run") = ["run"] :=
  (C5_target_selection graphA "run").1 (by decide)

set_option maxHeartbeats 1000000 in
set_option maxRecDepth 8192 in
theorem C6_collapse_shortens_witness :
    (generate_mermaid_filtered graphA rootA none [] [] true).mermaid.length
      < (generate_mermaid_filtered graphA rootA none [] [] false).mermaid.length :=
  C6_collapse_shortens graphA rootA [] [] (by decide) (by decide)

set_option maxHeartbeats 1000000 in
set_option maxRecDepth 8192 in
theorem C7_last_declaration_wins_witness :
    (JavaParser.parse rootD).nodes.countP (fun p => p.1 == "f") = 1
    ∧ mapLookup (JavaParser.parse rootD).nodes "f" =
        last_decl_entry (collect_method_declarations rootD ([], [])).2 "f" :=
  C7_last_declaration_wins rootD "f" (by decide)

set_option maxHeartbeats 1000000 in
set_option maxRecDepth 8192 in
theorem C8_calls_keys_subset_nodes_witness :
    mapContains (JavaParser.parse rootB).nodes "go" = true :=
  C8_calls_keys_subset_nodes rootB "go" (by decide)

set_option maxHeartbeats 1000000 in
set_option maxRecDepth 8192 in
theorem C9_receiverless_unknown_external_witness :
    invocation_step (generate_mermaid_cfg graphA) invH ([], []) =
      ([("helper", true, "helper()", 0)], []) :=
  (C9_receiverless_unknown_external (generate_mermaid_cfg graphA) invH
    (nnode "identifier" 0 6 "helper" []) [] [] rfl rfl rfl (by decide)).1

set_option maxHeartbeats 1000000 in
set_option maxRecDepth 8192 in
theorem C10_system_out_suppressed_witness :
    process_expression_with_label (generate_mermaid_cfg graphA) stmtS ["N1"] none
      ⟨0, ["flowchart TD"], []⟩ = (["N1"], ⟨0, ["flowchart TD"], []⟩) := by
  apply C10_system_out_suppressed
  · rfl
  · intro m hm hk
    have hmem : m ∈ (preorder_nodes stmtS).filter
        (fun x => x.kind == "method_invocation") :=
      List.mem_filter.mpr ⟨hm, by simp [hk]⟩
    have hfil : (preorder_nodes stmtS).filter (fun x => x.kind == "method_invocation")
        = [invS] := by decide
    rw [hfil] at hmem
    have hminv : m = invS := by simpa using hmem
    subst hminv
    exact ⟨objS, rfl, Or.inl rfl⟩
